import Mathlib

/-!
# Synthetic trace generator (`internal/tracegen/worker.go`)

A shallow embedding of the worker loop `simulateTraces`, the chain simulator
`fakeTraces` and the fake-data helpers, followed by the properties proved
about them.

Conventions of the embedding:

* `time.Duration` and instants are natural numbers of nanoseconds.  The
  product in `fakePausedDuration`, the one place where an argument can bring
  an `int64` out of range, is taken modulo `2^64`.  Every other duration is a
  sum of non-negative draws of at most `111 ms` each, so the `int64` range is
  out of reach for any chain shorter than `10^10` hops and wrap-around of
  these sums is not modelled.
* The clock advances only by `time.Sleep`; `time.Now()` reads it.
* Every call of the random source is an input: `rand.Intn(n)` delivers
  `raw % n` for an arbitrary natural `raw`, so all outcomes in `[0, n)` are
  covered.  The strings produced by the `fake` package are inputs as well.
* A Go panic (index out of range, `rand.Intn(0)`, a method call on a nil
  interface, a failed type assertion) and the exit of the process through
  `logger.Fatal` are the result `none`.
* Calls into the tracing library are recorded as events, in program order.
* What the program is handed from outside is taken to be in working order:
  the flag pointer, the logger and the wait group of the worker are set up by
  its creator, the global tracer starts a span, `fake.IPv4()` yields the text
  of an IPv4 address, and `Inject` and `Extract` return (with or without an
  error).  The outcomes that the code itself branches or can break on (the
  errors of `Inject`, `Extract` and `NewTracer`, the dynamic type of the root
  span) are inputs of the model.
-/

namespace Tracegen

/-! ## Go library primitives used by the program -/

/-- The constant `time.Millisecond`, in nanoseconds. -/
def Millisecond : Nat := 1000000

/-- The value of `rand.Intn(n)` for `n > 0` when the source delivers `raw`. -/
def Intn (raw n : Nat) : Nat := raw % n

/-- The Go expression `pool[rand.Intn(len(pool))]`: `rand.Intn` panics on an
empty pool. -/
def pick (pool : List String) (raw : Nat) : Option String :=
  if pool.length = 0 then none else pool[Intn raw pool.length]?

/-- The function `strings.HasPrefix`. -/
def HasPrefix (s p : String) : Bool := p.data.isPrefixOf s.data

/-- The function `strings.ToUpper` on ASCII text (the only text it is applied
to here comes from `redisApis` and `mysqlApis`). -/
def ToUpper (s : String) : String := ⟨s.data.map Char.toUpper⟩

/-- Cut a text at the first occurrence of `sep`. -/
def cutAt (sep : Char) : List Char → Option (List Char × List Char)
  | [] => none
  | c :: cs =>
    if c = sep then some ([], cs)
    else (cutAt sep cs).map (fun p => (c :: p.1, p.2))

/-- The call `strings.SplitN(s, sep, 2)` for a one-character separator: one
element when `sep` does not occur, otherwise the text before the first `sep`
and the text after it. -/
def SplitN2 (s : String) (sep : Char) : List String :=
  match cutAt sep s.data with
  | none => [s]
  | some (a, b) => [⟨a⟩, ⟨b⟩]

/-- All fields of a text separated by `sep`; never empty. -/
def fields (sep : Char) : List Char → List (List Char)
  | [] => [[]]
  | c :: cs =>
    if c = sep then [] :: fields sep cs
    else
      match fields sep cs with
      | [] => [[c]]
      | h :: t => (c :: h) :: t

/-- The call `strings.Split(s, sep)` for a one-character separator. -/
def Split (s : String) (sep : Char) : List String :=
  (fields sep s.data).map String.mk

/-! ## Fake data catalog -/

/-- The four octets of the address text returned by `fake.IPv4()`. -/
structure IPv4 where
  o0 : Nat
  o1 : Nat
  o2 : Nat
  o3 : Nat
deriving DecidableEq, Repr

/-- The closure `fakeIP`: the octets packed into a `uint32`. -/
def fakeIP (ip : IPv4) : Nat :=
  (ip.o3 % 256) ||| ((ip.o2 % 256) <<< 8) ||| ((ip.o1 % 256) <<< 16) |||
    ((ip.o0 % 256) <<< 24)

/-- The closure `fakeSpanDuration`; `r10` and `r100` are the raw outcomes of
the two draws. -/
def fakeSpanDuration (r10 r100 : Nat) : Nat :=
  (Intn r10 10 + Intn r100 100) * Millisecond

/-- The result of an `int64` multiplication: the product modulo `2^64`.  An
`int64` is represented by its residue; the residues from `2^63` on are the
negative values. -/
def wrap64 (x : Nat) : Nat := x % 2 ^ 64

/-- The closure `fakePausedDuration` for a non-negative span duration: the
pause drawn (the `int64` product of the draw and `time.Millisecond`), and the
clock after `time.Sleep(pause)`, which returns at once for a negative pause.
The type `int` of the argument of `rand.Intn` is 64 bits wide. -/
def fakePausedDuration (raw spanDuration clock : Nat) : Nat × Nat :=
  let pause := wrap64 (Intn raw (3 + spanDuration / Millisecond) * Millisecond)
  (pause, if pause < 2 ^ 63 then clock + pause else clock)

/-- The operation names of the key-value backend. -/
def redisApis : List String := ["Incr", "Set", "HSet", "TTL"]

/-- The operation names of the relational backend. -/
def mysqlApis : List String := ["Query", "Update", "Delete", "Update", "Replace"]

/-! ## Spans and events -/

/-- A span context: absent, the worker root span, the context rebuilt by
`Extract`, or the span of a hop of the running chain. -/
inductive SpanContext
  | nil
  | root
  | extracted
  | hop (i : Nat)
deriving DecidableEq, Repr

/-- How a started span refers to its parent. -/
inductive Reference
  | childOf (parent : SpanContext)
  | rpcServer (parent : SpanContext)
deriving DecidableEq, Repr

/-- A tag value. -/
inductive TagValue
  | str (s : String)
  | num (n : Nat)
deriving DecidableEq, Repr

/-- The calls a chain makes into the tracing library; spans are named by the
position of their hop. -/
inductive Event
  | tracer (service : String)
  | start (hop : Nat) (operation : String) (ref : Reference) (issuedAt : Nat)
  | tag (hop : Nat) (key : String) (value : TagValue)
  | logError (hop : Nat) (message : String) (words : String)
  | finish (hop : Nat) (finishTime : Nat)
deriving DecidableEq, Repr

/-- The outcomes of the random source consumed by one hop. -/
structure HopRand where
  api : Nat
  d10 : Nat
  d100 : Nat
  db : Nat
  pause : Nat
  dbInstance : String
  ip : IPv4
  rn : Nat
  status : Nat
  words : String
deriving DecidableEq, Repr

/-- The variables of `fakeTraces` that live across hops, with the clock and
the events emitted so far.  `rootSpan = none` is the nil interface value. -/
structure LoopState where
  clock : Nat
  parentCtx : SpanContext
  rootSpan : Option Nat
  totalLatency : Nat
  sleptLatency : Nat
  events : List Event
deriving DecidableEq, Repr

/-- The outcome of the backend switch at the head of the loop body. -/
structure Flavor where
  isFakeDB : Bool
  chainedService : String
  fakeApi : String
deriving DecidableEq, Repr

/-- The switch on the service-name prefix. -/
def flavor (chainedService fakeApi : String) (rawDb : Nat) : Option Flavor :=
  if HasPrefix chainedService "redis-" then
    (pick redisApis rawDb).map (fun op => ⟨true, "redis", op⟩)
  else if HasPrefix chainedService "mysql-" then
    (pick mysqlApis rawDb).map (fun op => ⟨true, "mysql", op⟩)
  else some ⟨false, chainedService, fakeApi⟩

/-- The format `"%s * FROM services WHERE service=%s"` (both names quoted by
backticks) applied to its two arguments. -/
def dbStatement (fakeApi chainedService : String) : String :=
  ToUpper fakeApi ++ " * FROM `services` WHERE service=`" ++ chainedService ++ "`"

/-- The state after the span of a hop has been started. -/
structure Started where
  childIssuedAt : Nat
  pausedLatency : Nat
  state : LoopState
deriving DecidableEq, Repr

/-- The `if !isFakeDB ... else ...` block: jitter pause, span start and the
flavor-specific tags. -/
def startHop (i : Nat) (f : Flavor) (fakeLatency : Nat) (r : HopRand)
    (s : LoopState) : Option Started :=
  if !f.isFakeDB then
    let st : Started :=
      if i > 0 then
        let pc := fakePausedDuration r.pause fakeLatency s.clock
        ⟨pc.2, pc.1, { s with
          clock := pc.2
          events := s.events ++
            [Event.start i f.fakeApi (Reference.childOf s.parentCtx) pc.2,
             Event.tag i "span.kind" (TagValue.str "client")] }⟩
      else
        ⟨s.clock, 0, { s with
          rootSpan := some i
          events := s.events ++
            [Event.start i f.fakeApi (Reference.rpcServer s.parentCtx) s.clock] }⟩
    let method2path := SplitN2 f.fakeApi ':'
    match method2path[0]?, method2path[1]? with
    | some method, some path =>
      some { st with state := { st.state with
        parentCtx := SpanContext.hop i
        events := st.state.events ++
          [Event.tag i "http.method" (TagValue.str method),
           Event.tag i "http.url" (TagValue.str path)] } }
    | _, _ => none
  else
    let pc := if i > 0 then fakePausedDuration r.pause fakeLatency s.clock else (0, s.clock)
    some ⟨pc.2, pc.1, { s with
      clock := pc.2
      events := s.events ++
        [Event.start i f.fakeApi (Reference.childOf s.parentCtx) pc.2,
         Event.tag i "span.kind" (TagValue.str "client"),
         Event.tag i "db.type" (TagValue.str f.chainedService),
         Event.tag i "db.instance" (TagValue.str r.dbInstance),
         Event.tag i "db.statement" (TagValue.str (dbStatement f.fakeApi f.chainedService))] }⟩

/-- The events of the simulated-failure switch. -/
def errorEvents (i : Nat) (f : Flavor) (r : HopRand) : List Event :=
  let rn := Intn r.rn 100
  if rn % 11 = 0 ∨ rn % 13 = 0 ∨ rn % 17 = 0 then
    (if !f.isFakeDB then
      [Event.tag i "http.status_code" (TagValue.num (500 + Intn r.status 4))]
     else []) ++
    [Event.logError i ("invoke service " ++ f.chainedService ++ " with error") r.words]
  else
    if !f.isFakeDB then [Event.tag i "http.status_code" (TagValue.num 200)] else []

/-- The latency bookkeeping at the end of the loop body: the new
`(totalLatency, sleptLatency)`. -/
def accumulate (totalLatency sleptLatency fakeLatency pausedLatency : Nat) : Nat × Nat :=
  let total := totalLatency + fakeLatency
  let slept := sleptLatency + pausedLatency
  if total < fakeLatency + pausedLatency then
    (fakeLatency + pausedLatency, slept + pausedLatency)
  else (total, slept)

/-- The rest of the loop body after the span has been started: peer tags, the
simulated failure, the finish of every hop but the first, the bookkeeping. -/
def finishHop (i : Nat) (f : Flavor) (fakeLatency : Nat) (r : HopRand)
    (st : Started) : LoopState :=
  let acc := accumulate st.state.totalLatency st.state.sleptLatency fakeLatency st.pausedLatency
  { st.state with
    events := st.state.events ++
      [Event.tag i "peer.service" (TagValue.str f.chainedService),
       Event.tag i "peer.ipv4" (TagValue.num (fakeIP r.ip))] ++
      errorEvents i f r ++
      (if i > 0 then [Event.finish i (st.childIssuedAt + fakeLatency)] else [])
    totalLatency := acc.1
    sleptLatency := acc.2 }

/-- One pass through the loop body of `fakeTraces`, for position `i`. -/
def hop (serviceApis : List String) (i : Nat) (chainedService : String)
    (r : HopRand) (s : LoopState) : Option LoopState :=
  match pick serviceApis r.api with
  | none => none
  | some fakeApi =>
    let fakeLatency := fakeSpanDuration r.d10 r.d100
    match flavor chainedService fakeApi r.db with
    | none => none
    | some f =>
      match startHop i f fakeLatency r s with
      | none => none
      | some st => some (finishHop i f fakeLatency r st)

/-- The loop of `fakeTraces` from position `i` on. -/
def hops (serviceApis : List String) (rnd : Nat → HopRand) :
    Nat → List String → LoopState → Option LoopState
  | _, [], s => some s
  | i, c :: cs, s =>
    match hop serviceApis i c (rnd i) s with
    | none => none
    | some s1 => hops serviceApis rnd (i + 1) cs s1

/-- What `fakeTraces` hands back: its two results, the clock at return and
the events it emitted. -/
structure ChainResult where
  totalLatency : Nat
  sleptLatency : Nat
  clock : Nat
  events : List Event
deriving DecidableEq, Repr

/-- The function `fakeTraces`.  `newTracerFails` is the outcome of its call
of `fakeTracer`: whether no tracer is cached for the first service name and
`NewTracer` returns an error, upon which `logger.Fatal` ends the process (as
for an empty service name); otherwise the call hands back a tracer. -/
def fakeTraces (parentCtx : SpanContext) (chainedServices serviceApis : List String)
    (chainedLatency : Nat) (newTracerFails : Bool) (rnd : Nat → HopRand) (clock : Nat) :
    Option ChainResult :=
  let clock0 := if chainedLatency > 0 then clock + chainedLatency else clock
  match chainedServices[0]? with
  | none => none
  | some first =>
    if newTracerFails then none
    else
      let rootIssuedAt := clock0
      match hops serviceApis rnd 0 chainedServices
          ⟨clock0, parentCtx, none, 0, 0, [Event.tracer first]⟩ with
      | none => none
      | some s =>
        match s.rootSpan with
        | none => none
        | some root =>
          some ⟨s.totalLatency, s.sleptLatency, s.clock,
            s.events ++ [Event.finish root (rootIssuedAt + (s.totalLatency + s.sleptLatency))]⟩

/-! ## Worker -/

/-- The configuration fields of `worker`.  The fields `duration` and `pause`
are never read by `simulateTraces`. -/
structure Worker where
  serviceApis : List String
  chainedServices : List String
  id : Int
  traces : Int
  marshal : Bool
  debug : Bool
  firehose : Bool
  duration : Nat
  pause : Nat
deriving DecidableEq, Repr

/-- What a worker does that is visible outside: loads of the shared flag,
calls on the root span, calls of `fakeTraces` (with the chain and the
incoming latency passed and the result returned), the log line and the
wait-group signal. -/
inductive WEvent
  | load (value : Nat)
  | rootStart (issuedAt : Nat)
  | rootTag (key : String) (value : TagValue)
  | enableFirehose
  | logError (message : String)
  | chain (chainedServices : List String) (chainedLatency : Nat) (result : ChainResult)
  | rootFinish (finishTime : Nat)
  | info (message : String)
  | done
deriving DecidableEq, Repr

/-- The outcomes one iteration of the worker draws from its environment: the
peer address of the root span, whether the span started by the global tracer
is a `*jaeger.Span`, whether `Inject` and `Extract` succeed, whether the call
of `fakeTracer` for chain `k` ends in the fatal exit, and the draws of hop `i`
of chain `k`. -/
structure IterRand where
  ip : IPv4
  rootIsJaeger : Bool
  injectOk : Bool
  extractOk : Bool
  newTracerFails : Nat → Bool
  hops : Nat → Nat → HopRand

/-- The variables of the loop over `w.chainedServices`. -/
structure ChainLoop where
  clock : Nat
  totalLatency : Nat
  chainedLatency : Nat
  sleptLatency : Nat
  events : List WEvent
deriving DecidableEq, Repr

/-- The loop over `w.chainedServices`, from chain number `k` on. -/
def chains (w : Worker) (parentCtx : SpanContext) (r : IterRand) :
    Nat → List String → ChainLoop → Option ChainLoop
  | _, [], s => some s
  | k, chainedService :: rest, s =>
    match fakeTraces parentCtx (Split chainedService ',') w.serviceApis
        s.chainedLatency (r.newTracerFails k) (r.hops k) s.clock with
    | none => none
    | some res =>
      chains w parentCtx r (k + 1) rest
        { clock := res.clock
          totalLatency := s.totalLatency + res.totalLatency + res.sleptLatency
          chainedLatency := res.totalLatency
          sleptLatency := res.sleptLatency
          events := s.events ++
            [WEvent.chain (Split chainedService ',') s.chainedLatency res] }

/-- The events before the chains of an iteration, and the parent context the
chains are given.  With `w.firehose` set, the type assertion
`rootSpan.(*jaeger.Span)` panics when the root span is not a jaeger span. -/
def openRoot (w : Worker) (r : IterRand) (clock : Nat) :
    Option (List WEvent × SpanContext) :=
  let ev :=
    [WEvent.rootStart clock,
     WEvent.rootTag "span.kind" (TagValue.str "client"),
     WEvent.rootTag "peer.service" (TagValue.str "tracegen-service"),
     WEvent.rootTag "peer.ipv4" (TagValue.num (fakeIP r.ip))] ++
    (if w.debug then [WEvent.rootTag "sampling.priority" (TagValue.num 100)] else []) ++
    (if w.firehose then [WEvent.enableFirehose] else [])
  if w.firehose && !r.rootIsJaeger then none
  else if w.marshal then
    if r.injectOk then
      if r.extractOk then some (ev, SpanContext.extracted)
      else some (ev ++ [WEvent.logError "cannot extract from TextMap"], SpanContext.nil)
    else some (ev ++ [WEvent.logError "cannot inject span"], SpanContext.root)
  else some (ev, SpanContext.root)

/-- The body of the loop of `simulateTraces`: the clock at its end and its
events. -/
def iteration (w : Worker) (r : IterRand) (clock : Nat) : Option (Nat × List WEvent) :=
  match openRoot w r clock with
  | none => none
  | some o =>
    let issuedAt := clock
    match chains w o.2 r 0 w.chainedServices ⟨clock, 0, 0, 0, o.1⟩ with
    | none => none
    | some s => some (s.clock, s.events ++ [WEvent.rootFinish (issuedAt + s.totalLatency)])

/-- How a run of the loop ends: with a final state, cut short by a panic or
by the fatal exit, or with the fuel of the model used up. -/
inductive Run (α : Type)
  | ok (a : α)
  | panicked
  | outOfFuel
deriving DecidableEq, Repr

/-- The variables of the loop of `simulateTraces`, with the number of loads
of the shared flag made so far. -/
structure WorkerState where
  clock : Nat
  i : Nat
  loads : Nat
  events : List WEvent
deriving DecidableEq, Repr

/-- The loop of `simulateTraces`.  `flag j` is the value the `j`-th load of
the shared flag observes; `rnd j` are the draws of iteration `j`. -/
def loop (w : Worker) (flag : Nat → Nat) (rnd : Nat → IterRand) :
    Nat → WorkerState → Run WorkerState
  | 0, _ => Run.outOfFuel
  | fuel + 1, s =>
    let v := flag s.loads
    let s1 : WorkerState := { s with loads := s.loads + 1, events := s.events ++ [WEvent.load v] }
    if v = 1 then
      match iteration w (rnd s.i) s1.clock with
      | none => Run.panicked
      | some (clock, evs) =>
        let s2 : WorkerState :=
          { s1 with clock := clock, i := s1.i + 1, events := s1.events ++ evs }
        if w.traces ≠ 0 ∧ (s2.i : Int) ≥ w.traces then Run.ok s2
        else loop w flag rnd fuel s2
    else Run.ok s1

/-- The text `"Worker %d generated %d traces"` of the final log line. -/
def report (id : Int) (i : Nat) : String :=
  "Worker " ++ toString id ++ " generated " ++ toString i ++ " traces"

/-- The method `simulateTraces`. -/
def simulateTraces (w : Worker) (flag : Nat → Nat) (rnd : Nat → IterRand)
    (fuel clock : Nat) : Run WorkerState :=
  match loop w flag rnd fuel ⟨clock, 0, 0, []⟩ with
  | Run.ok s => Run.ok { s with events := s.events ++ [WEvent.info (report w.id s.i), WEvent.done] }
  | Run.panicked => Run.panicked
  | Run.outOfFuel => Run.outOfFuel

/-! ## Quantities the claims speak about -/

/-- The synthetic duration drawn for hop `i`. -/
def hopDuration (rnd : Nat → HopRand) (i : Nat) : Nat :=
  fakeSpanDuration (rnd i).d10 (rnd i).d100

/-- The jitter pause taken before hop `i`: the value `fakePausedDuration`
returns for the duration of the hop, and `0` for the first hop, before which
the function is not called. -/
def hopPause (rnd : Nat → HopRand) (i : Nat) : Nat :=
  if i > 0 then (fakePausedDuration (rnd i).pause (hopDuration rnd i) 0).1 else 0

/-- Whether a service name selects a backend flavor. -/
def isBackend (chainedService : String) : Bool :=
  HasPrefix chainedService "redis-" || HasPrefix chainedService "mysql-"

/-- The total accumulated before hop `n`, as the loop computes it: each hop
adds its duration to the larger of the previous total and its own pause. -/
def totalBefore (rnd : Nat → HopRand) (n : Nat) : Nat :=
  (List.range n).foldl (fun t i => hopDuration rnd i + max t (hopPause rnd i)) 0

/-- The running maximum of `d_i + p_i` over the first `n` hops. -/
def runningMax (rnd : Nat → HopRand) (n : Nat) : Nat :=
  (List.range n).foldl (fun t i => max t (hopDuration rnd i + hopPause rnd i)) 0

/-- The pauses of the first `n` hops, each counted once. -/
def pauseSum (rnd : Nat → HopRand) (n : Nat) : Nat :=
  ((List.range n).map (hopPause rnd)).sum

/-- The value the loop gives `sleptLatency` after `n` hops: every pause once,
and once more when it exceeds the total accumulated before its hop. -/
def sleptAfter (rnd : Nat → HopRand) (n : Nat) : Nat :=
  ((List.range n).map (fun i =>
    hopPause rnd i + (if totalBefore rnd i < hopPause rnd i then hopPause rnd i else 0))).sum

/-- The calls of `fakeTraces` in a list of worker events: the incoming
latency passed, the `totalLatency` and the `sleptLatency` returned. -/
def chainCalls (evs : List WEvent) : List (Nat × Nat × Nat) :=
  evs.filterMap (fun e =>
    match e with
    | WEvent.chain _ lat res => some (lat, res.totalLatency, res.sleptLatency)
    | _ => none)

/-- The calls of `fakeTraces` in a list of worker events, in order: the chain
and the incoming latency passed, and the result returned. -/
def calls (evs : List WEvent) : List (List String × Nat × ChainResult) :=
  evs.filterMap (fun e =>
    match e with
    | WEvent.chain c lat res => some (c, lat, res)
    | _ => none)

/-- The calls are those of the chains numbered `k`, `k + 1`, ... of an
iteration with draws `r`: each call is passed as incoming latency the
`totalLatency` returned by the call before it (`prev` for the first of them),
and its result is what `fakeTraces` returns for its chain, the pool of the
worker, that incoming latency and the draws of its chain. -/
def threadedCalls (w : Worker) (r : IterRand) :
    Nat → Nat → List (List String × Nat × ChainResult) → Prop
  | _, _, [] => True
  | k, prev, c :: cs =>
    c.2.1 = prev ∧
    (∃ ctx clock0, fakeTraces ctx c.1 w.serviceApis c.2.1 (r.newTracerFails k) (r.hops k)
      clock0 = some c.2.2) ∧
    threadedCalls w r (k + 1) c.2.2.totalLatency cs

/-- Each call receives as incoming latency the `totalLatency` returned by the
call before it, and the first one receives `prev`. -/
def threaded : Nat → List (Nat × Nat × Nat) → Prop
  | _, [] => True
  | prev, c :: cs => c.1 = prev ∧ threaded c.2.1 cs

/-- The running total of the worker after the given calls: the sum of the
`totalLatency` and `sleptLatency` they returned. -/
def cumulative (calls : List (Nat × Nat × Nat)) : Nat :=
  (calls.map (fun c => c.2.1 + c.2.2)).sum

/-- The control skeleton of a worker event: loads of the flag (with whether
the value read is "running"), start and finish of a root span, calls of the
chain simulator, the final log line and the wait-group signal. -/
inductive Ctl
  | load (running : Bool)
  | rootStart
  | chain
  | rootFinish
  | info (message : String)
  | done
deriving DecidableEq, Repr

/-- The control skeleton of a worker event, if it has one. -/
def ctl : WEvent → Option Ctl
  | WEvent.load v => some (Ctl.load (decide (v = 1)))
  | WEvent.rootStart _ => some Ctl.rootStart
  | WEvent.chain _ _ _ => some Ctl.chain
  | WEvent.rootFinish _ => some Ctl.rootFinish
  | WEvent.info m => some (Ctl.info m)
  | WEvent.done => some Ctl.done
  | _ => none

/-- The control skeleton of one complete iteration over `m` chains, after the
load of the flag that admitted it. -/
def iterationShape (m : Nat) : List Ctl :=
  [Ctl.load true, Ctl.rootStart] ++ List.replicate m Ctl.chain ++ [Ctl.rootFinish]

/-- The number of iterations the claim expects for target `n` when the flag
reads "running" at exactly the first `k` checks. -/
def completed (n k : Nat) : Nat := if n = 0 then k else min k n

/-- Whether the loop is left through its head (the flag no longer reads
"running") rather than through the `break` on the target. -/
def stoppedByFlag (n k : Nat) : Prop := n = 0 ∨ k < n

instance (n k : Nat) : Decidable (stoppedByFlag n k) := by
  unfold stoppedByFlag
  infer_instance

/-! ## Preconditions and invariants used in the proofs -/

/-- A pool the loop body can draw from without panicking: not empty, and every
name has a colon. -/
def wellFormedOps (apis : List String) : Prop :=
  apis ≠ [] ∧ ∀ op ∈ apis, ':' ∈ op.data

instance (apis : List String) : Decidable (wellFormedOps apis) := by
  unfold wellFormedOps
  infer_instance

/-- Whether the first service name of a comma-separated chain selects no
backend flavor. -/
def plainFirst (chainedService : String) : Bool :=
  match Split chainedService ',' with
  | [] => true
  | first :: _ => !isBackend first

/-- A worker none of whose iterations panics: a well-formed pool, and chains
that start with an ordinary service. -/
def runnable (w : Worker) : Prop :=
  wellFormedOps w.serviceApis ∧ ∀ c ∈ w.chainedServices, plainFirst c = true

instance (w : Worker) : Decidable (runnable w) := by
  unfold runnable
  infer_instance

/-- Draws under which an iteration is not cut short from outside the chains:
the root span is a jaeger span when the worker sets the firehose flag, and
every call of `fakeTracer` obtains a tracer. -/
def steady (w : Worker) (r : IterRand) : Prop :=
  (w.firehose = true → r.rootIsJaeger = true) ∧ ∀ k, r.newTracerFails k = false

/-- The bookkeeping of hop `i` on the pair `(totalLatency, sleptLatency)`. -/
def step (rnd : Nat → HopRand) (ts : Nat × Nat) (i : Nat) : Nat × Nat :=
  accumulate ts.1 ts.2 (hopDuration rnd i) (hopPause rnd i)

/-- The pair `(totalLatency, sleptLatency)` after the first `n` hops. -/
def latencies (rnd : Nat → HopRand) (n : Nat) : Nat × Nat :=
  (List.range n).foldl (step rnd) (0, 0)

/-- The invariant of the loop of `fakeTraces` relative to the start `S` of the
chain: the clock has advanced by no more than `sleptLatency`, and every span
finished so far ends no later than `S + totalLatency + sleptLatency`. -/
def ChainInv (S : Nat) (s : LoopState) : Prop :=
  s.clock ≤ S + s.sleptLatency ∧
  ∀ j t, Event.finish j t ∈ s.events → t ≤ S + s.totalLatency + s.sleptLatency

/-- The invariant of the loop over the chains relative to the start `I` of
the iteration. -/
def IterInv (I : Nat) (s : ChainLoop) : Prop :=
  s.clock + s.chainedLatency ≤ I + s.totalLatency ∧
  ∀ c lat res j t, WEvent.chain c lat res ∈ s.events → Event.finish j t ∈ res.events →
    t ≤ I + s.totalLatency

/-! ## Sample inputs -/

/-- The draws of a hop with duration `d100` ms and raw pause draw `pause`; the
failure draw `1` selects the success branch. -/
def hopDraws (d100 pause : Nat) : HopRand :=
  ⟨0, 0, d100, 0, pause, "10.0.0.1", ⟨10, 0, 0, 1⟩, 1, 0, "lorem"⟩

/-- Hop 0 lasts 10 ms, every later hop 20 ms, no pause. -/
def rndGrowing : Nat → HopRand := fun i => if i = 0 then hopDraws 10 0 else hopDraws 20 0

/-- Every hop lasts 0 ms and every pause is 2 ms. -/
def rndPausing : Nat → HopRand := fun _ => hopDraws 0 2

/-- The result of the chain `svc-a, svc-b` under `rndGrowing`. -/
def resGrowing : ChainResult :=
  (fakeTraces SpanContext.root ["svc-a", "svc-b"] ["GET:/a"] 0 false rndGrowing 0).getD ⟨0, 0, 0, []⟩

/-- The result of the chain `svc-a, svc-b` under `rndPausing`. -/
def resPausing : ChainResult :=
  (fakeTraces SpanContext.root ["svc-a", "svc-b"] ["GET:/a"] 0 false rndPausing 0).getD ⟨0, 0, 0, []⟩

/-- A worker with the two chains `svc-a, svc-b` and `svc-c` and target 1. -/
def wSample : Worker := ⟨["GET:/a"], ["svc-a,svc-b", "svc-c"], 3, 1, false, false, false, 0, 0⟩

/-- A worker with three chains of one hop each. -/
def wThree : Worker := ⟨["GET:/a"], ["svc-a", "svc-b", "svc-c"], 0, 1, false, false, false, 0, 0⟩

/-- Every hop lasts 10 ms, no pause. -/
def rSteady : IterRand := ⟨⟨127, 0, 0, 1⟩, true, true, true, fun _ => false, fun _ _ => hopDraws 10 0⟩

/-- Every hop lasts 0 ms, every pause 2 ms. -/
def rPausing : IterRand := ⟨⟨127, 0, 0, 1⟩, true, true, true, fun _ => false, fun _ _ => hopDraws 0 2⟩

/-- The iteration of `wSample` under `rPausing` from clock 0. -/
def itPausing : Nat × List WEvent := (iteration wSample rPausing 0).getD (0, [])

/-- The iteration of `wThree` under `rSteady` from clock 0. -/
def itSteady : Nat × List WEvent := (iteration wThree rSteady 0).getD (0, [])

/-- A worker with target 1 whose pool holds a name without colon. -/
def wPing : Worker := ⟨["ping"], ["svc-a"], 3, 1, false, false, false, 0, 0⟩

/-- A worker with target 1 whose only chain is the empty service name. -/
def wBlank : Worker := ⟨["GET:/a"], [""], 3, 1, false, false, false, 0, 0⟩

/-- Every hop lasts 10 ms, and no tracer can be created. -/
def rFatal : IterRand :=
  ⟨⟨127, 0, 0, 1⟩, true, true, true, fun _ => true, fun _ _ => hopDraws 10 0⟩

/-- The flag reads "running" at the first three checks and "stop" after. -/
def flagThree : Nat → Nat := fun j => if j < 3 then 1 else 0

/-! ## Lemmas on one hop -/

theorem fakeSpanDuration_le (r10 r100 : Nat) :
    fakeSpanDuration r10 r100 ≤ 108 * Millisecond := by
  unfold fakeSpanDuration Intn
  have h1 : r10 % 10 < 10 := Nat.mod_lt _ (by decide)
  have h2 : r100 % 100 < 100 := Nat.mod_lt _ (by decide)
  exact Nat.mul_le_mul_right _ (by omega)

theorem fakePausedDuration_fst_clock (raw d c : Nat) :
    (fakePausedDuration raw d c).1 = (fakePausedDuration raw d 0).1 := rfl

/-- Below the span duration at which the `int64` product can overflow, the
pause is the plain product, it is not negative, and the clock advances by
it. -/
theorem fakePausedDuration_small (raw d c : Nat) (hd : d < 9223372036853000000) :
    (fakePausedDuration raw d c).1 = Intn raw (3 + d / Millisecond) * Millisecond ∧
    (fakePausedDuration raw d c).1 < 2 ^ 63 ∧
    (fakePausedDuration raw d c).2 = c + (fakePausedDuration raw d c).1 := by
  have hq : d / Millisecond < 9223372036853 :=
    Nat.div_lt_of_lt_mul (Nat.lt_of_lt_of_le hd (by decide))
  have hlt : Intn raw (3 + d / Millisecond) < 3 + d / Millisecond :=
    Nat.mod_lt _ (Nat.lt_of_lt_of_le (by decide) (Nat.le_add_right 3 _))
  have hprod : Intn raw (3 + d / Millisecond) * Millisecond < 2 ^ 63 := by
    have : Intn raw (3 + d / Millisecond) ≤ 9223372036854 := by
      generalize d / Millisecond = q at hq hlt
      generalize Intn raw (3 + q) = x at hlt
      omega
    calc Intn raw (3 + d / Millisecond) * Millisecond
        ≤ 9223372036854 * Millisecond := Nat.mul_le_mul_right _ this
      _ < 2 ^ 63 := by decide
  have hw : wrap64 (Intn raw (3 + d / Millisecond) * Millisecond) =
      Intn raw (3 + d / Millisecond) * Millisecond :=
    Nat.mod_eq_of_lt (Nat.lt_trans hprod (by decide))
  unfold fakePausedDuration
  simp only [hw, hprod, if_true]
  exact ⟨trivial, trivial, trivial⟩

theorem fakePausedDuration_snd (raw r10 r100 c : Nat) :
    (fakePausedDuration raw (fakeSpanDuration r10 r100) c).2 =
      c + (fakePausedDuration raw (fakeSpanDuration r10 r100) 0).1 := by
  have hd : fakeSpanDuration r10 r100 < 9223372036853000000 :=
    Nat.lt_of_le_of_lt (fakeSpanDuration_le r10 r100) (by decide)
  rw [(fakePausedDuration_small raw _ c hd).2.2, fakePausedDuration_fst_clock]

theorem flavor_isFakeDB {c api : String} {raw : Nat} {f : Flavor}
    (h : flavor c api raw = some f) : f.isFakeDB = isBackend c := by
  unfold flavor at h
  unfold isBackend
  cases h1 : HasPrefix c "redis-"
  · cases h2 : HasPrefix c "mysql-"
    · simp only [h1, h2, Bool.false_eq_true, if_false, Option.some.injEq] at h
      subst h
      rfl
    · simp only [h1, h2, Bool.false_eq_true, if_false, if_true, Option.map_eq_some'] at h
      obtain ⟨op, _, rfl⟩ := h
      rfl
  · simp only [h1, if_true, Option.map_eq_some'] at h
    obtain ⟨op, _, rfl⟩ := h
    rfl

/-- What `startHop` leaves behind when it does not panic. -/
theorem startHop_spec {i : Nat} {f : Flavor} {d : Nat} {r : HopRand} {s : LoopState}
    {st : Started} (hd : d < 9223372036853000000) (h : startHop i f d r s = some st) :
    st.pausedLatency = (if i > 0 then (fakePausedDuration r.pause d 0).1 else 0) ∧
    st.childIssuedAt = s.clock + st.pausedLatency ∧
    st.state.clock = s.clock + st.pausedLatency ∧
    st.state.totalLatency = s.totalLatency ∧
    st.state.sleptLatency = s.sleptLatency ∧
    st.state.rootSpan = (if f.isFakeDB = false ∧ i = 0 then some i else s.rootSpan) ∧
    ∃ evs, st.state.events = s.events ++ evs ∧ ∀ j t, Event.finish j t ∉ evs := by
  have hsnd : (fakePausedDuration r.pause d s.clock).2 =
      s.clock + (fakePausedDuration r.pause d 0).1 :=
    (fakePausedDuration_small r.pause d s.clock hd).2.2
  unfold startHop at h
  cases hdb : f.isFakeDB
  · simp only [hdb, Bool.not_false, if_true] at h
    split at h
    · simp only [Option.some.injEq] at h
      subst h
      by_cases hi : i > 0
      · have hi0 : i ≠ 0 := Nat.pos_iff_ne_zero.mp hi
        refine ⟨?_, ?_, ?_, ?_, ?_, ?_, ?_⟩
        · simp [hi, fakePausedDuration_fst_clock]
        · simp [hi, hsnd, fakePausedDuration_fst_clock]
        · simp [hi, hsnd, fakePausedDuration_fst_clock]
        · simp [hi]
        · simp [hi]
        · simp [hi, hi0]
        · simp only [hi, if_true]
          exact ⟨_, List.append_assoc _ _ _, by intro j t; simp⟩
      · have hi0 : i = 0 := by omega
        subst hi0
        refine ⟨?_, ?_, ?_, ?_, ?_, ?_, ?_⟩
        · simp
        · simp
        · simp
        · simp
        · simp
        · simp
        · simp only [gt_iff_lt, lt_self_iff_false, if_false]
          exact ⟨_, List.append_assoc _ _ _, by intro j t; simp⟩
    · exact absurd h (by simp)
  · simp only [hdb, Bool.not_true, Bool.false_eq_true, if_false, Option.some.injEq] at h
    subst h
    by_cases hi : i > 0
    · refine ⟨?_, ?_, ?_, ?_, ?_, ?_, ?_⟩
      · simp [hi, fakePausedDuration_fst_clock]
      · simp [hi, hsnd, fakePausedDuration_fst_clock]
      · simp [hi, hsnd, fakePausedDuration_fst_clock]
      · simp [hi]
      · simp [hi]
      · simp [hi]
      · exact ⟨_, rfl, by intro j t; simp⟩
    · refine ⟨?_, ?_, ?_, ?_, ?_, ?_, ?_⟩
      · simp [hi]
      · simp [hi]
      · simp [hi]
      · simp [hi]
      · simp [hi]
      · simp [hi]
      · exact ⟨_, rfl, by intro j t; simp⟩

/-- What one pass through the loop body does to the loop variables, when it
does not panic. -/
theorem hop_spec {apis : List String} {i : Nat} {c : String} {r : HopRand}
    {s s1 : LoopState} (h : hop apis i c r s = some s1) :
    s1.clock = s.clock + (if i > 0 then (fakePausedDuration r.pause (fakeSpanDuration r.d10 r.d100) 0).1 else 0) ∧
    (s1.totalLatency, s1.sleptLatency) =
      accumulate s.totalLatency s.sleptLatency (fakeSpanDuration r.d10 r.d100)
        (if i > 0 then (fakePausedDuration r.pause (fakeSpanDuration r.d10 r.d100) 0).1 else 0) ∧
    s1.rootSpan = (if isBackend c = false ∧ i = 0 then some i else s.rootSpan) ∧
    ∃ evs, s1.events = s.events ++ evs ∧
      ∀ j t, Event.finish j t ∈ evs → 0 < i ∧ j = i ∧
        t = s.clock + (if i > 0 then (fakePausedDuration r.pause (fakeSpanDuration r.d10 r.d100) 0).1 else 0)
          + fakeSpanDuration r.d10 r.d100 := by
  unfold hop at h
  split at h
  · exact absurd h (by simp)
  · rename_i fakeApi hpick
    simp only at h
    split at h
    · exact absurd h (by simp)
    · rename_i f hf
      split at h
      · exact absurd h (by simp)
      · rename_i st hst
        simp only [Option.some.injEq] at h
        subst h
        obtain ⟨hp, hissued, hclock, htot, hslept, hroot, evs, hev, hnofin⟩ :=
          startHop_spec (Nat.lt_of_le_of_lt (fakeSpanDuration_le r.d10 r.d100) (by decide)) hst
        have hdb := flavor_isFakeDB hf
        refine ⟨?_, ?_, ?_, ?_⟩
        · simp only [finishHop, hclock, hp]
        · simp only [finishHop, htot, hslept, hp]
        · simp only [finishHop, hroot, hdb]
        · refine ⟨evs ++ ([Event.tag i "peer.service" (TagValue.str f.chainedService),
              Event.tag i "peer.ipv4" (TagValue.num (fakeIP r.ip))] ++
              errorEvents i f r ++
              (if i > 0 then [Event.finish i (st.childIssuedAt + fakeSpanDuration r.d10 r.d100)]
               else [])), ?_, ?_⟩
          · simp only [finishHop, hev, List.append_assoc]
          · intro j t hmem
            have herr : Event.finish j t ∉ errorEvents i f r := by
              unfold errorEvents
              simp only
              split <;> split <;> simp
            by_cases hi : i > 0
            · simp [hnofin, herr, hi] at hmem
              obtain ⟨hj, ht⟩ := hmem
              refine ⟨hi, hj, ?_⟩
              rw [ht, hissued, hp]
            · simp [hnofin, herr, hi] at hmem

/-! ## Lemmas on the loop of `fakeTraces` -/

theorem accumulate_fst (t s d p : Nat) : (accumulate t s d p).1 = d + max t p := by
  unfold accumulate
  simp only
  split
  · rw [max_eq_right (by omega)]
  · rw [max_eq_left (by omega)]
    omega

theorem accumulate_snd (t s d p : Nat) :
    (accumulate t s d p).2 = s + p + (if t < p then p else 0) := by
  unfold accumulate
  simp only
  by_cases h : t < p
  · rw [if_pos (by omega), if_pos h]
  · rw [if_neg (by omega), if_neg h]
    rfl

theorem hops_latency {apis : List String} {rnd : Nat → HopRand} :
    ∀ (cs : List String) (i : Nat) (s s1 : LoopState),
      hops apis rnd i cs s = some s1 →
      (s1.totalLatency, s1.sleptLatency) =
        (List.range' i cs.length).foldl (step rnd) (s.totalLatency, s.sleptLatency) := by
  intro cs
  induction cs with
  | nil =>
    intro i s s1 h
    simp only [hops, Option.some.injEq] at h
    subst h
    rfl
  | cons c cs ih =>
    intro i s s1 h
    simp only [hops] at h
    split at h
    · exact absurd h (by simp)
    · rename_i s2 h2
      have hs := (hop_spec h2).2.1
      rw [ih (i + 1) s2 s1 h, hs]
      simp only [List.length_cons, List.range'_succ, List.foldl_cons]
      rfl

/-- The shape of a successful call of `fakeTraces`. -/
theorem fakeTraces_eq_some {ctx : SpanContext} {chain apis : List String} {lat : Nat} {tf : Bool}
    {rnd : Nat → HopRand} {clock : Nat} {res : ChainResult}
    (h : fakeTraces ctx chain apis lat tf rnd clock = some res) :
    ∃ first s root, chain[0]? = some first ∧
      hops apis rnd 0 chain ⟨clock + lat, ctx, none, 0, 0, [Event.tracer first]⟩ = some s ∧
      s.rootSpan = some root ∧
      res = ⟨s.totalLatency, s.sleptLatency, s.clock,
        s.events ++ [Event.finish root (clock + lat + (s.totalLatency + s.sleptLatency))]⟩ := by
  unfold fakeTraces at h
  have hc : (if lat > 0 then clock + lat else clock) = clock + lat := by
    split
    · rfl
    · omega
  simp only [hc] at h
  split at h
  · exact absurd h (by simp)
  · rename_i first hfirst
    split at h
    · exact absurd h (by simp)
    · split at h
      · exact absurd h (by simp)
      · rename_i s hs
        split at h
        · exact absurd h (by simp)
        · rename_i root hroot
          simp only [Option.some.injEq] at h
          exact ⟨first, s, root, hfirst, hs, hroot, h.symm⟩

/-- A call of `fakeTraces` that returns has obtained its tracer. -/
theorem fakeTraces_tracer {ctx : SpanContext} {chain apis : List String} {lat : Nat} {tf : Bool}
    {rnd : Nat → HopRand} {clock : Nat} {res : ChainResult}
    (h : fakeTraces ctx chain apis lat tf rnd clock = some res) : tf = false := by
  cases tf with
  | false => rfl
  | true =>
    unfold fakeTraces at h
    simp only [if_true] at h
    split at h <;> exact absurd h (by simp)

theorem latencies_succ (rnd : Nat → HopRand) (n : Nat) :
    latencies rnd (n + 1) = step rnd (latencies rnd n) n := by
  simp [latencies, List.range_succ, List.foldl_append]

theorem fakeTraces_latencies {ctx : SpanContext} {chain apis : List String} {lat : Nat} {tf : Bool}
    {rnd : Nat → HopRand} {clock : Nat} {res : ChainResult}
    (h : fakeTraces ctx chain apis lat tf rnd clock = some res) :
    (res.totalLatency, res.sleptLatency) = latencies rnd chain.length := by
  obtain ⟨first, s, root, _, hs, _, rfl⟩ := fakeTraces_eq_some h
  have := hops_latency chain 0 _ s hs
  rw [this, latencies, List.range_eq_range']

theorem totalBefore_succ (rnd : Nat → HopRand) (n : Nat) :
    totalBefore rnd (n + 1) = hopDuration rnd n + max (totalBefore rnd n) (hopPause rnd n) := by
  simp [totalBefore, List.range_succ, List.foldl_append]

theorem latencies_fst (rnd : Nat → HopRand) (n : Nat) :
    (latencies rnd n).1 = totalBefore rnd n := by
  induction n with
  | zero => rfl
  | succ n ih => rw [latencies_succ, totalBefore_succ, step, accumulate_fst, ih]

theorem runningMax_succ (rnd : Nat → HopRand) (n : Nat) :
    runningMax rnd (n + 1) = max (runningMax rnd n) (hopDuration rnd n + hopPause rnd n) := by
  simp [runningMax, List.range_succ, List.foldl_append]

theorem runningMax_le_totalBefore (rnd : Nat → HopRand) (n : Nat) :
    runningMax rnd n ≤ totalBefore rnd n := by
  induction n with
  | zero => exact Nat.le_refl _
  | succ n ih =>
    rw [runningMax_succ, totalBefore_succ]
    have h1 := le_max_left (totalBefore rnd n) (hopPause rnd n)
    have h2 := le_max_right (totalBefore rnd n) (hopPause rnd n)
    exact max_le (by omega) (by omega)

theorem latencies_snd (rnd : Nat → HopRand) (n : Nat) :
    (latencies rnd n).2 = sleptAfter rnd n := by
  induction n with
  | zero => rfl
  | succ n ih =>
    rw [latencies_succ, step, accumulate_snd, ih, latencies_fst]
    simp [sleptAfter, List.range_succ]
    omega

theorem pauseSum_le_sleptAfter (rnd : Nat → HopRand) (n : Nat) :
    pauseSum rnd n ≤ sleptAfter rnd n ∧ sleptAfter rnd n ≤ 2 * pauseSum rnd n := by
  induction n with
  | zero => exact ⟨Nat.le_refl _, Nat.le_refl _⟩
  | succ n ih =>
    simp only [pauseSum, sleptAfter, List.range_succ, List.map_append, List.map_cons,
      List.map_nil, List.sum_append, List.sum_cons, List.sum_nil] at ih ⊢
    split <;> omega

/-! ## C1: the total latency of a chain -/

/-- C1, as stated, fails: for the chain `svc-a, svc-b` with durations 10 ms
and 20 ms and no pause, `fakeTraces` returns a total of 30 ms, while the
running maximum of `d_i + p_i` is 20 ms. -/
theorem totalLatency_not_runningMax :
    (fakeTraces SpanContext.root ["svc-a", "svc-b"] ["GET:/a"] 0 false rndGrowing 0).map
        (fun r => r.totalLatency) = some 30000000 ∧
    runningMax rndGrowing 2 = 20000000 := by
  constructor <;> decide

/-- C1, amended: whenever `fakeTraces` returns, its `totalLatency` is the
fold, over the hops in order and starting from 0, of
`t ↦ d_i + max t p_i` (each hop adds its duration to the larger of the
previous total and its pause); it is never below the running maximum of
`d_i + p_i`. -/
theorem fakeTraces_totalLatency {ctx : SpanContext} {chain apis : List String} {lat : Nat} {tf : Bool}
    {rnd : Nat → HopRand} {clock : Nat} {res : ChainResult}
    (h : fakeTraces ctx chain apis lat tf rnd clock = some res) :
    res.totalLatency =
      (List.range chain.length).foldl
        (fun t i => hopDuration rnd i + max t (hopPause rnd i)) 0 ∧
    (List.range chain.length).foldl
        (fun t i => max t (hopDuration rnd i + hopPause rnd i)) 0 ≤ res.totalLatency := by
  have h1 : res.totalLatency = totalBefore rnd chain.length := by
    have := congrArg Prod.fst (fakeTraces_latencies h)
    simpa [latencies_fst] using this
  exact ⟨h1, h1 ▸ runningMax_le_totalBefore rnd chain.length⟩

/-- C1, amended, holds on a chain that returns. -/
theorem fakeTraces_totalLatency_witness :
    fakeTraces SpanContext.root ["svc-a", "svc-b"] ["GET:/a"] 0 false rndGrowing 0 = some resGrowing ∧
    resGrowing.totalLatency =
      (List.range 2).foldl
        (fun t i => hopDuration rndGrowing i + max t (hopPause rndGrowing i)) 0 :=
  ⟨by decide, (fakeTraces_totalLatency
    (show fakeTraces SpanContext.root ["svc-a", "svc-b"] ["GET:/a"] 0 false rndGrowing 0 =
      some resGrowing by decide)).1⟩

/-! ## C2: the slept latency of a chain -/

/-- C2, as stated, fails: with durations 0 ms and a pause of 2 ms before hop 1
the chain sleeps 2 ms in all (the clock at return is 2 ms after the start),
the sum of the pauses is 2 ms, and `fakeTraces` returns a `sleptLatency` of
4 ms. -/
theorem sleptLatency_not_pauseSum :
    (fakeTraces SpanContext.root ["svc-a", "svc-b"] ["GET:/a"] 0 false rndPausing 0).map
        (fun r => (r.sleptLatency, r.clock)) = some (4000000, 2000000) ∧
    pauseSum rndPausing 2 = 2000000 := by
  constructor <;> decide

/-- C2, amended: whenever `fakeTraces` returns, its `sleptLatency` is the sum
over the hops of `p_i`, plus `p_i` once more for every hop whose pause exceeds
the total accumulated before it; so it is at least the sum of the pauses and
at most twice that sum. -/
theorem fakeTraces_sleptLatency {ctx : SpanContext} {chain apis : List String} {lat : Nat} {tf : Bool}
    {rnd : Nat → HopRand} {clock : Nat} {res : ChainResult}
    (h : fakeTraces ctx chain apis lat tf rnd clock = some res) :
    res.sleptLatency =
      ((List.range chain.length).map (fun i =>
        hopPause rnd i +
          (if totalBefore rnd i < hopPause rnd i then hopPause rnd i else 0))).sum ∧
    ((List.range chain.length).map (hopPause rnd)).sum ≤ res.sleptLatency ∧
    res.sleptLatency ≤ 2 * ((List.range chain.length).map (hopPause rnd)).sum := by
  have h1 : res.sleptLatency = sleptAfter rnd chain.length := by
    have := congrArg Prod.snd (fakeTraces_latencies h)
    simpa [latencies_snd] using this
  have h2 := pauseSum_le_sleptAfter rnd chain.length
  exact ⟨h1, h1 ▸ h2.1, h1 ▸ h2.2⟩

/-- C2, amended, holds on a chain that returns. -/
theorem fakeTraces_sleptLatency_witness :
    fakeTraces SpanContext.root ["svc-a", "svc-b"] ["GET:/a"] 0 false rndPausing 0 = some resPausing ∧
    ((List.range 2).map (hopPause rndPausing)).sum ≤ resPausing.sleptLatency :=
  ⟨by decide, (fakeTraces_sleptLatency
    (show fakeTraces SpanContext.root ["svc-a", "svc-b"] ["GET:/a"] 0 false rndPausing 0 =
      some resPausing by decide)).2.1⟩

/-! ## C6: the bound on a jitter pause -/

/-- C6, as stated, fails: for a span duration of 0 the draw 2 gives a pause of
2 ms, which exceeds the span duration. -/
theorem fakePausedDuration_exceeds_spanDuration :
    (fakePausedDuration 2 0 0).1 = 2 * Millisecond ∧ ¬ (fakePausedDuration 2 0 0).1 ≤ 0 := by
  constructor <;> decide

/-- The bound on the span duration in the amended C6 is sharp: at
`9223372036853000000` ns the largest draw makes the `int64` product negative,
and the function then returns a negative pause without sleeping. -/
theorem fakePausedDuration_overflows :
    2 ^ 63 ≤ (fakePausedDuration 9223372036855 9223372036853000000 0).1 ∧
    (fakePausedDuration 9223372036855 9223372036853000000 0).2 = 0 := by
  constructor <;> decide

/-- C6, amended: for every span duration from 0 up to, but not including,
`9223372036853000000` ns (from there on the `int64` product can overflow) and
every outcome of the random source, the pause returned by
`fakePausedDuration` is not negative, is a whole number of milliseconds, is at
most 2 ms above the span duration (so below `spanDuration + 3 ms`), and the
clock has advanced by exactly the pause. -/
theorem fakePausedDuration_bound (raw spanDuration clock : Nat)
    (hd : spanDuration < 9223372036853000000) :
    (fakePausedDuration raw spanDuration clock).1 < 2 ^ 63 ∧
    (fakePausedDuration raw spanDuration clock).1 ≤ spanDuration + 2 * Millisecond ∧
    (fakePausedDuration raw spanDuration clock).1 % Millisecond = 0 ∧
    (fakePausedDuration raw spanDuration clock).2 =
      clock + (fakePausedDuration raw spanDuration clock).1 := by
  obtain ⟨h1, h2, h3⟩ := fakePausedDuration_small raw spanDuration clock hd
  refine ⟨h2, ?_, ?_, h3⟩
  · rw [h1]
    unfold Intn
    have hdiv : spanDuration / Millisecond * Millisecond ≤ spanDuration :=
      Nat.div_mul_le_self _ _
    generalize spanDuration / Millisecond = q at hdiv ⊢
    have hlt : raw % (3 + q) < 3 + q := Nat.mod_lt _ (by omega)
    have hle : raw % (3 + q) ≤ 2 + q := by omega
    calc raw % (3 + q) * Millisecond
        ≤ (2 + q) * Millisecond := Nat.mul_le_mul_right _ hle
      _ = q * Millisecond + 2 * Millisecond := by ring
      _ ≤ spanDuration + 2 * Millisecond := by omega
  · rw [h1]
    exact Nat.mul_mod_left _ _

/-- C6, amended, applies to a span duration of 5 ms: the draw 7 gives a pause
of 7 ms. -/
theorem fakePausedDuration_bound_witness :
    5 * Millisecond < 9223372036853000000 ∧
    (fakePausedDuration 7 (5 * Millisecond) 0).1 = 7 * Millisecond ∧
    (fakePausedDuration 7 (5 * Millisecond) 0).1 ≤ 5 * Millisecond + 2 * Millisecond :=
  ⟨by decide, by decide, (fakePausedDuration_bound 7 (5 * Millisecond) 0 (by decide)).2.1⟩

/-! ## Lemmas on text splitting and picking -/

theorem cutAt_append {sep : Char} (b : List Char) :
    ∀ a : List Char, sep ∉ a → cutAt sep (a ++ sep :: b) = some (a, b) := by
  intro a
  induction a with
  | nil => intro _; simp [cutAt]
  | cons c cs ih =>
    intro h
    have hc : c ≠ sep := fun e => h (e ▸ List.mem_cons_self _ _)
    have hcs : sep ∉ cs := fun e => h (List.mem_cons_of_mem _ e)
    simp [cutAt, hc, ih hcs]

theorem cutAt_of_mem {sep : Char} :
    ∀ l : List Char, sep ∈ l →
      ∃ a b, cutAt sep l = some (a, b) ∧ l = a ++ sep :: b ∧ sep ∉ a := by
  intro l
  induction l with
  | nil => intro h; exact absurd h (List.not_mem_nil _)
  | cons c cs ih =>
    intro h
    by_cases hc : c = sep
    · exact ⟨[], cs, by simp [cutAt, hc], by simp [hc], List.not_mem_nil _⟩
    · have hcs : sep ∈ cs := by
        rcases List.mem_cons.mp h with e | e
        · exact absurd e.symm hc
        · exact e
      obtain ⟨a, b, hab, hl, hna⟩ := ih hcs
      refine ⟨c :: a, b, by simp [cutAt, hc, hab], by simp [hl], ?_⟩
      intro hmem
      rcases List.mem_cons.mp hmem with e | e
      · exact hc e.symm
      · exact hna e

theorem cutAt_eq_none {sep : Char} :
    ∀ l : List Char, sep ∉ l → cutAt sep l = none := by
  intro l
  induction l with
  | nil => intro _; rfl
  | cons c cs ih =>
    intro h
    have hc : c ≠ sep := fun e => h (e ▸ List.mem_cons_self _ _)
    have hcs : sep ∉ cs := fun e => h (List.mem_cons_of_mem _ e)
    simp [cutAt, hc, ih hcs]

theorem pick_of_ne_nil {pool : List String} (h : pool ≠ []) (raw : Nat) :
    ∃ op, op ∈ pool ∧ pick pool raw = some op := by
  have hlen : 0 < pool.length := List.length_pos.mpr h
  have hlt : Intn raw pool.length < pool.length := Nat.mod_lt _ hlen
  refine ⟨pool[Intn raw pool.length], List.getElem_mem _, ?_⟩
  unfold pick
  rw [if_neg (by omega)]
  exact List.getElem?_eq_getElem hlt

theorem pick_mem {pool : List String} {raw : Nat} {op : String}
    (h : pick pool raw = some op) : op ∈ pool := by
  unfold pick at h
  split at h
  · exact absurd h (by simp)
  · exact List.getElem?_mem h

theorem fields_ne_nil (sep : Char) : ∀ l : List Char, fields sep l ≠ [] := by
  intro l
  induction l with
  | nil => simp [fields]
  | cons c cs ih =>
    unfold fields
    split
    · simp
    · split <;> simp

theorem Split_ne_nil (s : String) (sep : Char) : Split s sep ≠ [] := by
  unfold Split
  simpa using fields_ne_nil sep s.data

/-! ## Lemmas on the tags of a hop -/

theorem flavor_plain {c : String} (api : String) (raw : Nat) (h : isBackend c = false) :
    flavor c api raw = some ⟨false, c, api⟩ := by
  unfold isBackend at h
  simp only [Bool.or_eq_false_iff] at h
  simp [flavor, h.1, h.2]

theorem flavor_backend {c : String} (api : String) (raw : Nat) (h : isBackend c = true) :
    ∃ op, pick (if HasPrefix c "redis-" then redisApis else mysqlApis) raw = some op ∧
      flavor c api raw =
        some ⟨true, if HasPrefix c "redis-" then "redis" else "mysql", op⟩ := by
  unfold isBackend at h
  cases h1 : HasPrefix c "redis-"
  · simp only [h1, Bool.false_or] at h
    obtain ⟨op, _, hop⟩ := pick_of_ne_nil (show mysqlApis ≠ [] by decide) raw
    exact ⟨op, by simpa using hop, by simp [flavor, h1, h, hop]⟩
  · obtain ⟨op, _, hop⟩ := pick_of_ne_nil (show redisApis ≠ [] by decide) raw
    exact ⟨op, by simpa using hop, by simp [flavor, h1, hop]⟩

theorem finishHop_events (i : Nat) (f : Flavor) (d : Nat) (r : HopRand) (st : Started) :
    ∀ e, e ∈ st.state.events → e ∈ (finishHop i f d r st).events := by
  intro e he
  simp only [finishHop, List.append_assoc]
  exact List.mem_append_left _ he

theorem startHop_http {i : Nat} {f : Flavor} (d : Nat) (r : HopRand) (s : LoopState)
    {a b : List Char} (hdb : f.isFakeDB = false) (hcut : cutAt ':' f.fakeApi.data = some (a, b)) :
    ∃ st, startHop i f d r s = some st ∧
      Event.tag i "http.method" (TagValue.str ⟨a⟩) ∈ st.state.events ∧
      Event.tag i "http.url" (TagValue.str ⟨b⟩) ∈ st.state.events := by
  unfold startHop
  simp only [hdb, Bool.not_false, if_true, SplitN2, hcut]
  refine ⟨_, rfl, ?_, ?_⟩ <;> simp

theorem startHop_plain_none {i : Nat} {f : Flavor} (d : Nat) (r : HopRand) (s : LoopState)
    (hdb : f.isFakeDB = false) (hcut : cutAt ':' f.fakeApi.data = none) :
    startHop i f d r s = none := by
  unfold startHop
  simp [hdb, SplitN2, hcut]

theorem startHop_db {i : Nat} {f : Flavor} (d : Nat) (r : HopRand) (s : LoopState)
    (hdb : f.isFakeDB = true) :
    ∃ st, startHop i f d r s = some st ∧
      (∃ t, Event.start i f.fakeApi (Reference.childOf s.parentCtx) t ∈ st.state.events) ∧
      Event.tag i "db.type" (TagValue.str f.chainedService) ∈ st.state.events ∧
      Event.tag i "db.statement" (TagValue.str (dbStatement f.fakeApi f.chainedService)) ∈
        st.state.events := by
  unfold startHop
  simp only [hdb, Bool.not_true, Bool.false_eq_true, if_false]
  by_cases hi : i > 0
  · simp only [hi, if_true]
    exact ⟨_, rfl, ⟨_, List.mem_append_right _ (List.mem_cons_self _ _)⟩, by simp, by simp⟩
  · simp only [hi, if_false]
    exact ⟨_, rfl, ⟨_, List.mem_append_right _ (List.mem_cons_self _ _)⟩, by simp, by simp⟩

theorem hop_plain {apis : List String} {i : Nat} {c : String} {r : HopRand} (s : LoopState)
    {op : String} {a b : List Char} (hc : isBackend c = false)
    (hpick : pick apis r.api = some op) (hcut : cutAt ':' op.data = some (a, b)) :
    ∃ s1, hop apis i c r s = some s1 ∧
      Event.tag i "http.method" (TagValue.str ⟨a⟩) ∈ s1.events ∧
      Event.tag i "http.url" (TagValue.str ⟨b⟩) ∈ s1.events := by
  obtain ⟨st, hst, h1, h2⟩ :=
    startHop_http (i := i) (f := ⟨false, c, op⟩) (fakeSpanDuration r.d10 r.d100) r s rfl hcut
  refine ⟨finishHop i ⟨false, c, op⟩ (fakeSpanDuration r.d10 r.d100) r st, ?_,
    finishHop_events _ _ _ _ _ _ h1, finishHop_events _ _ _ _ _ _ h2⟩
  unfold hop
  simp only [hpick, flavor_plain op r.db hc, hst]

theorem hop_plain_none {apis : List String} {i : Nat} {c : String} {r : HopRand}
    (s : LoopState) {op : String} (hc : isBackend c = false)
    (hpick : pick apis r.api = some op) (hcut : cutAt ':' op.data = none) :
    hop apis i c r s = none := by
  have hst := startHop_plain_none (i := i) (f := ⟨false, c, op⟩)
    (fakeSpanDuration r.d10 r.d100) r s rfl hcut
  unfold hop
  simp only [hpick, flavor_plain op r.db hc, hst]

theorem hop_backend {apis : List String} (i : Nat) {c : String} (r : HopRand) (s : LoopState)
    (hc : isBackend c = true) (hne : apis ≠ []) :
    ∃ s1 op, pick (if HasPrefix c "redis-" then redisApis else mysqlApis) r.db = some op ∧
      hop apis i c r s = some s1 ∧
      (∃ t, Event.start i op (Reference.childOf s.parentCtx) t ∈ s1.events) ∧
      Event.tag i "db.type"
        (TagValue.str (if HasPrefix c "redis-" then "redis" else "mysql")) ∈ s1.events ∧
      Event.tag i "db.statement"
        (TagValue.str (dbStatement op (if HasPrefix c "redis-" then "redis" else "mysql"))) ∈
          s1.events := by
  obtain ⟨api, _, hpick⟩ := pick_of_ne_nil hne r.api
  obtain ⟨op, hop1, hf⟩ := flavor_backend api r.db hc
  obtain ⟨st, hst, ⟨t, h0⟩, h1, h2⟩ :=
    startHop_db (i := i) (f := ⟨true, if HasPrefix c "redis-" then "redis" else "mysql", op⟩)
      (fakeSpanDuration r.d10 r.d100) r s rfl
  refine ⟨finishHop i ⟨true, if HasPrefix c "redis-" then "redis" else "mysql", op⟩
    (fakeSpanDuration r.d10 r.d100) r st, op, hop1, ?_,
    ⟨t, finishHop_events _ _ _ _ _ _ h0⟩,
    finishHop_events _ _ _ _ _ _ h1, finishHop_events _ _ _ _ _ _ h2⟩
  unfold hop
  simp only [hpick, hf, hst]

theorem hop_isSome {apis : List String} (hwf : wellFormedOps apis) (i : Nat) (c : String)
    (r : HopRand) (s : LoopState) : ∃ s1, hop apis i c r s = some s1 := by
  cases hc : isBackend c
  · obtain ⟨op, hmem, hpick⟩ := pick_of_ne_nil hwf.1 r.api
    obtain ⟨a, b, hcut, _, _⟩ := cutAt_of_mem op.data (hwf.2 op hmem)
    obtain ⟨s1, h1, _⟩ := hop_plain (i := i) s hc hpick hcut
    exact ⟨s1, h1⟩
  · obtain ⟨s1, _, _, h1, _⟩ := hop_backend i r s hc hwf.1
    exact ⟨s1, h1⟩

theorem hops_isSome {apis : List String} (hwf : wellFormedOps apis) (rnd : Nat → HopRand) :
    ∀ (cs : List String) (i : Nat) (s : LoopState), ∃ s1, hops apis rnd i cs s = some s1 := by
  intro cs
  induction cs with
  | nil => intro i s; exact ⟨s, rfl⟩
  | cons c cs ih =>
    intro i s
    obtain ⟨s2, h2⟩ := hop_isSome hwf i c (rnd i) s
    obtain ⟨s1, h1⟩ := ih (i + 1) s2
    exact ⟨s1, by simp only [hops, h2, h1]⟩

theorem hops_rootSpan_succ {apis : List String} {rnd : Nat → HopRand} :
    ∀ (cs : List String) (i : Nat) (s s1 : LoopState),
      hops apis rnd (i + 1) cs s = some s1 → s1.rootSpan = s.rootSpan := by
  intro cs
  induction cs with
  | nil =>
    intro i s s1 h
    simp only [hops, Option.some.injEq] at h
    rw [h]
  | cons c cs ih =>
    intro i s s1 h
    simp only [hops] at h
    split at h
    · exact absurd h (by simp)
    · rename_i s2 h2
      rw [ih (i + 1) s2 s1 h, (hop_spec h2).2.2.1]
      simp

theorem hops_rootSpan_zero {apis : List String} {rnd : Nat → HopRand} {c : String}
    {cs : List String} {s s1 : LoopState} (h : hops apis rnd 0 (c :: cs) s = some s1) :
    s1.rootSpan = if isBackend c = false then some 0 else s.rootSpan := by
  simp only [hops] at h
  split at h
  · exact absurd h (by simp)
  · rename_i s2 h2
    rw [hops_rootSpan_succ cs 0 s2 s1 h, (hop_spec h2).2.2.1]
    simp

/-- A chain whose first name selects a backend flavor never returns: the
variable `rootSpan` is still nil when it is finished after the loop. -/
theorem fakeTraces_backend_first (ctx : SpanContext) (first : String) (rest apis : List String)
    (lat : Nat) (tf : Bool) (rnd : Nat → HopRand) (clock : Nat)
    (hb : isBackend first = true) :
    fakeTraces ctx (first :: rest) apis lat tf rnd clock = none := by
  cases h : fakeTraces ctx (first :: rest) apis lat tf rnd clock with
  | none => rfl
  | some res =>
    obtain ⟨f, s, root, _, hs, hroot, _⟩ := fakeTraces_eq_some h
    have := hops_rootSpan_zero hs
    simp [hb, hroot] at this

/-- A chain whose first name selects no backend flavor returns, for a
well-formed pool. -/
theorem fakeTraces_returns {apis : List String} (hwf : wellFormedOps apis) (ctx : SpanContext)
    (first : String) (rest : List String) (lat : Nat) (rnd : Nat → HopRand) (clock : Nat)
    (hb : isBackend first = false) :
    ∃ res, fakeTraces ctx (first :: rest) apis lat false rnd clock = some res := by
  obtain ⟨s, hs⟩ := hops_isSome hwf rnd (first :: rest) 0
    ⟨if lat > 0 then clock + lat else clock, ctx, none, 0, 0, [Event.tracer first]⟩
  have hroot := hops_rootSpan_zero hs
  simp only [hb, if_true] at hroot
  unfold fakeTraces
  simp only [List.getElem?_cons_zero, hs, hroot]
  exact ⟨_, rfl⟩

/-! ## C3: a chain that starts with a backend-flavored name -/

theorem hops_finish_pos {apis : List String} {rnd : Nat → HopRand} :
    ∀ (cs : List String) (i : Nat) (s s1 : LoopState),
      hops apis rnd i cs s = some s1 →
      (∀ j t, Event.finish j t ∈ s.events → 0 < j) →
      ∀ j t, Event.finish j t ∈ s1.events → 0 < j := by
  intro cs
  induction cs with
  | nil =>
    intro i s s1 h hinv
    simp only [hops, Option.some.injEq] at h
    exact h ▸ hinv
  | cons c cs ih =>
    intro i s s1 h hinv
    simp only [hops] at h
    split at h
    · exact absurd h (by simp)
    · rename_i s2 h2
      refine ih (i + 1) s2 s1 h ?_
      obtain ⟨_, _, _, evs, hev, hfin⟩ := hop_spec h2
      intro j t hmem
      rw [hev] at hmem
      rcases List.mem_append.mp hmem with hold | hnew
      · exact hinv j t hold
      · obtain ⟨hpos, hj, _⟩ := hfin j t hnew
        omega

/-- The sibling path: a chain whose first name selects no backend flavor
returns (for a well-formed pool), and the span of position 0 is finished
exactly once, by the last event, at the start instant of the chain plus
`totalLatency + sleptLatency`. -/
theorem fakeTraces_plain_first_finishes_root {apis : List String} (hwf : wellFormedOps apis)
    (ctx : SpanContext) (first : String) (rest : List String) (lat : Nat)
    (rnd : Nat → HopRand) (clock : Nat) (hb : isBackend first = false) :
    ∃ res front, fakeTraces ctx (first :: rest) apis lat false rnd clock = some res ∧
      res.events = front ++
        [Event.finish 0 (clock + lat + (res.totalLatency + res.sleptLatency))] ∧
      ∀ t, Event.finish 0 t ∉ front := by
  obtain ⟨res, hres⟩ := fakeTraces_returns hwf ctx first rest lat rnd clock hb
  obtain ⟨f, s, root, _, hs, hroot, rfl⟩ := fakeTraces_eq_some hres
  have hzero := hops_rootSpan_zero hs
  simp only [hb, if_true, hroot, Option.some.injEq] at hzero
  subst hzero
  refine ⟨_, s.events, hres, rfl, ?_⟩
  intro t hmem
  have := hops_finish_pos (first :: rest) 0 _ s hs (by intro j t h; simp at h) 0 t hmem
  omega

/-- C3: the chain `redis-cache, svc-c` of the spec scenario never reaches the
return of `fakeTraces`, whatever the pool, the incoming latency and the
random draws are: position 0 takes the backend branch, which leaves
`rootSpan` unset, and the finish after the loop is a call on a nil span. -/
theorem fakeTraces_redis_first_panics (ctx : SpanContext) (apis : List String) (lat : Nat)
    (tf : Bool) (rnd : Nat → HopRand) (clock : Nat) :
    fakeTraces ctx ["redis-cache", "svc-c"] apis lat tf rnd clock = none :=
  fakeTraces_backend_first ctx "redis-cache" ["svc-c"] apis lat tf rnd clock (by decide)

/-! ## C5: the tags of a backend hop -/

/-- C5, as stated, fails: the hop for `redis-cache` is tagged with the
statement `INCR * FROM services WHERE service=redis` (names in backticks),
in which the stripped name `cache` does not occur. -/
theorem dbStatement_lacks_stripped_name :
    (hop ["GET:/a"] 0 "redis-cache" (hopDraws 0 0)
        ⟨0, SpanContext.root, none, 0, 0, []⟩).map (fun s => s.events) =
      some
        [Event.start 0 "Incr" (Reference.childOf SpanContext.root) 0,
         Event.tag 0 "span.kind" (TagValue.str "client"),
         Event.tag 0 "db.type" (TagValue.str "redis"),
         Event.tag 0 "db.instance" (TagValue.str "10.0.0.1"),
         Event.tag 0 "db.statement"
           (TagValue.str "INCR * FROM `services` WHERE service=`redis`"),
         Event.tag 0 "peer.service" (TagValue.str "redis"),
         Event.tag 0 "peer.ipv4" (TagValue.num 167772161)] ∧
    ¬ List.IsInfix "cache".data "INCR * FROM `services` WHERE service=`redis`".data := by
  constructor <;> decide

/-- C5, amended: for every service name with the prefix `redis-` or `mysql-`
and a non-empty generic pool, the hop does not panic; its operation name is
the one drawn from the operation set of the flavor (`redisApis` or
`mysqlApis`), which is the operation name its span is started with; the span
gets the backend-type tag equal to the flavor (`redis` or `mysql`); and its
backend-statement tag is that operation name in uppercase, followed by the
fixed text naming the table `services`, followed by the flavor name between
backticks, where the claim has the stripped name. -/
theorem hop_backend_tags {apis : List String} (i : Nat) {c : String} (r : HopRand)
    (s : LoopState) (hc : isBackend c = true) (hne : apis ≠ []) :
    ∃ s1 op, pick (if HasPrefix c "redis-" then redisApis else mysqlApis) r.db = some op ∧
      hop apis i c r s = some s1 ∧
      (∃ t, Event.start i op (Reference.childOf s.parentCtx) t ∈ s1.events) ∧
      Event.tag i "db.type"
        (TagValue.str (if HasPrefix c "redis-" then "redis" else "mysql")) ∈ s1.events ∧
      Event.tag i "db.statement"
        (TagValue.str (ToUpper op ++ " * FROM `services` WHERE service=`" ++
          (if HasPrefix c "redis-" then "redis" else "mysql") ++ "`")) ∈ s1.events :=
  hop_backend i r s hc hne

/-- C5, amended, applies to the name `mysql-orders`. -/
theorem hop_backend_tags_witness :
    isBackend "mysql-orders" = true ∧ ["GET:/a"] ≠ [] ∧
    ∃ s1 op,
      pick (if HasPrefix "mysql-orders" "redis-" then redisApis else mysqlApis)
        (hopDraws 5 1).db = some op ∧
      hop ["GET:/a"] 1 "mysql-orders" (hopDraws 5 1) ⟨0, SpanContext.root, none, 0, 0, []⟩ =
        some s1 ∧
      (∃ t, Event.start 1 op (Reference.childOf SpanContext.root) t ∈ s1.events) ∧
      Event.tag 1 "db.type"
        (TagValue.str (if HasPrefix "mysql-orders" "redis-" then "redis" else "mysql")) ∈
          s1.events ∧
      Event.tag 1 "db.statement"
        (TagValue.str (ToUpper op ++ " * FROM `services` WHERE service=`" ++
          (if HasPrefix "mysql-orders" "redis-" then "redis" else "mysql") ++ "`")) ∈
            s1.events :=
  ⟨by decide, by decide,
    hop_backend_tags 1 (hopDraws 5 1) ⟨0, SpanContext.root, none, 0, 0, []⟩ (by decide)
      (by decide)⟩

/-! ## C10: the method and path tags of an ordinary hop -/

/-- C10, as stated, fails: for the operation name `ping`, which has no colon,
the split has one element and the hop panics on its second index; so does the
chain. -/
theorem split_panics_without_colon :
    SplitN2 "ping" ':' = ["ping"] ∧
    hop ["ping"] 0 "svc-a" (hopDraws 0 0) ⟨0, SpanContext.root, none, 0, 0, []⟩ = none ∧
    fakeTraces SpanContext.root ["svc-a"] ["ping"] 0 false rndGrowing 0 = none := by
  refine ⟨?_, ?_, ?_⟩ <;> decide

/-- C10, amended: for a non-empty pool in which every operation name has a
colon, a non-backend hop does not panic and tags its span with the text of
the chosen name before its first colon as HTTP method and the text after
that colon as path. -/
theorem hop_http_tags {apis : List String} (hwf : wellFormedOps apis) (i : Nat) {c : String}
    (r : HopRand) (s : LoopState) (hc : isBackend c = false) :
    ∃ s1 op method path, pick apis r.api = some op ∧ op ∈ apis ∧
      op = method ++ ":" ++ path ∧ ':' ∉ method.data ∧
      hop apis i c r s = some s1 ∧
      Event.tag i "http.method" (TagValue.str method) ∈ s1.events ∧
      Event.tag i "http.url" (TagValue.str path) ∈ s1.events := by
  obtain ⟨op, hmem, hpick⟩ := pick_of_ne_nil hwf.1 r.api
  obtain ⟨a, b, hcut, hl, hna⟩ := cutAt_of_mem op.data (hwf.2 op hmem)
  obtain ⟨s1, h1, h2, h3⟩ := hop_plain (i := i) s hc hpick hcut
  refine ⟨s1, op, ⟨a⟩, ⟨b⟩, hpick, hmem, ?_, hna, h1, h2, h3⟩
  apply String.ext
  simp [hl]

/-- C10, amended, applies to the pool `GET:/a, POST:/b:c`. -/
theorem hop_http_tags_witness :
    wellFormedOps ["GET:/a", "POST:/b:c"] ∧ isBackend "svc-a" = false ∧
    ∃ s1 op method path, pick ["GET:/a", "POST:/b:c"] (hopDraws 0 0).api = some op ∧
      op ∈ ["GET:/a", "POST:/b:c"] ∧
      op = method ++ ":" ++ path ∧ ':' ∉ method.data ∧
      hop ["GET:/a", "POST:/b:c"] 0 "svc-a" (hopDraws 0 0)
        ⟨0, SpanContext.root, none, 0, 0, []⟩ = some s1 ∧
      Event.tag 0 "http.method" (TagValue.str method) ∈ s1.events ∧
      Event.tag 0 "http.url" (TagValue.str path) ∈ s1.events :=
  ⟨by decide, by decide,
    hop_http_tags (by decide) 0 (hopDraws 0 0) ⟨0, SpanContext.root, none, 0, 0, []⟩
      (by decide)⟩

/-! ## Lemmas on the timestamps of a chain -/

theorem accumulate_mono (t s d p : Nat) :
    t ≤ (accumulate t s d p).1 ∧ d ≤ (accumulate t s d p).1 ∧
    s + p ≤ (accumulate t s d p).2 := by
  rw [accumulate_fst, accumulate_snd]
  have h1 := le_max_left t p
  refine ⟨by omega, by omega, by omega⟩

theorem hop_ChainInv {apis : List String} {i : Nat} {c : String} {r : HopRand}
    {s s1 : LoopState} {S : Nat} (h : hop apis i c r s = some s1) (hinv : ChainInv S s) :
    ChainInv S s1 := by
  obtain ⟨hclock, hacc, _, evs, hev, hfin⟩ := hop_spec h
  have hmono := accumulate_mono s.totalLatency s.sleptLatency (fakeSpanDuration r.d10 r.d100)
    (if i > 0 then (fakePausedDuration r.pause (fakeSpanDuration r.d10 r.d100) 0).1 else 0)
  rw [← hacc] at hmono
  simp only at hmono
  obtain ⟨hm1, hm2, hm3⟩ := hmono
  obtain ⟨hc, he⟩ := hinv
  refine ⟨by omega, ?_⟩
  intro j t hmem
  rw [hev] at hmem
  rcases List.mem_append.mp hmem with hold | hnew
  · have := he j t hold
    omega
  · obtain ⟨_, _, ht⟩ := hfin j t hnew
    omega

theorem hops_ChainInv {apis : List String} {rnd : Nat → HopRand} {S : Nat} :
    ∀ (cs : List String) (i : Nat) (s s1 : LoopState),
      hops apis rnd i cs s = some s1 → ChainInv S s → ChainInv S s1 := by
  intro cs
  induction cs with
  | nil =>
    intro i s s1 h hinv
    simp only [hops, Option.some.injEq] at h
    exact h ▸ hinv
  | cons c cs ih =>
    intro i s s1 h hinv
    simp only [hops] at h
    split at h
    · exact absurd h (by simp)
    · rename_i s2 h2
      exact ih (i + 1) s2 s1 h (hop_ChainInv h2 hinv)

/-- The timestamps of a chain that returns: the chain has slept no longer
than the `sleptLatency` it reports (after the incoming latency), and all its
spans end no later than its start plus `totalLatency + sleptLatency`. -/
theorem fakeTraces_bounds {ctx : SpanContext} {chain apis : List String} {lat : Nat} {tf : Bool}
    {rnd : Nat → HopRand} {clock : Nat} {res : ChainResult}
    (h : fakeTraces ctx chain apis lat tf rnd clock = some res) :
    res.clock ≤ clock + lat + res.sleptLatency ∧
    ∀ j t, Event.finish j t ∈ res.events →
      t ≤ clock + lat + res.totalLatency + res.sleptLatency := by
  obtain ⟨first, s, root, _, hs, _, rfl⟩ := fakeTraces_eq_some h
  have hinit : ChainInv (clock + lat) ⟨clock + lat, ctx, none, 0, 0, [Event.tracer first]⟩ := by
    refine ⟨Nat.le_refl _, ?_⟩
    intro j t hmem
    simp at hmem
  obtain ⟨hc, he⟩ := hops_ChainInv chain 0 _ s hs hinit
  refine ⟨hc, ?_⟩
  intro j t hmem
  dsimp only at hmem ⊢
  rcases List.mem_append.mp hmem with hold | hnew
  · exact he j t hold
  · simp only [List.mem_singleton, Event.finish.injEq] at hnew
    omega

/-! ## Lemmas on the chains of one iteration -/

/-- The events before the chains: one start of the root span, no call of the
chain simulator and no finish of the root span. -/
theorem openRoot_spec {w : Worker} {r : IterRand} {clock : Nat}
    {o : List WEvent × SpanContext} (h : openRoot w r clock = some o) :
    (∀ c lat res, WEvent.chain c lat res ∉ o.1) ∧ (∀ T, WEvent.rootFinish T ∉ o.1) ∧
    chainCalls o.1 = [] ∧ calls o.1 = [] ∧ o.1.filterMap ctl = [Ctl.rootStart] := by
  unfold openRoot at h
  cases hd : w.debug <;> cases hf : w.firehose <;> cases hj : r.rootIsJaeger <;>
    cases hm : w.marshal <;> cases hi : r.injectOk <;> cases he : r.extractOk <;>
    simp [hd, hf, hj, hm, hi, he] at h <;> subst h <;> simp [chainCalls, calls, ctl]

theorem openRoot_isSome (w : Worker) (r : IterRand) (clock : Nat)
    (h : w.firehose = true → r.rootIsJaeger = true) : ∃ o, openRoot w r clock = some o := by
  unfold openRoot
  cases hf : w.firehose <;> cases hj : r.rootIsJaeger <;>
    cases hm : w.marshal <;> cases hi : r.injectOk <;> cases he : r.extractOk <;>
    simp [hf, hj] at h ⊢

theorem chainCalls_append (a b : List WEvent) :
    chainCalls (a ++ b) = chainCalls a ++ chainCalls b := by
  simp [chainCalls, List.filterMap_append]

theorem calls_append (a b : List WEvent) : calls (a ++ b) = calls a ++ calls b := by
  simp [calls, List.filterMap_append]

theorem chains_threaded {w : Worker} {ctx : SpanContext} {r : IterRand} :
    ∀ (cs : List String) (k : Nat) (s s1 : ChainLoop),
      chains w ctx r k cs s = some s1 →
      ∃ cl, chainCalls s1.events = chainCalls s.events ++ cl ∧
        cl.length = cs.length ∧ threaded s.chainedLatency cl ∧
        s1.totalLatency = s.totalLatency + cumulative cl := by
  intro cs
  induction cs with
  | nil =>
    intro k s s1 h
    simp only [chains, Option.some.injEq] at h
    subst h
    exact ⟨[], by simp, rfl, trivial, rfl⟩
  | cons c cs ih =>
    intro k s s1 h
    simp only [chains] at h
    split at h
    · exact absurd h (by simp)
    · rename_i res hres
      obtain ⟨cl, h1, h2, h3, h4⟩ := ih (k + 1) _ s1 h
      refine ⟨(s.chainedLatency, res.totalLatency, res.sleptLatency) :: cl, ?_, ?_, ?_, ?_⟩
      · rw [h1, chainCalls_append]
        simp [chainCalls]
      · simp [h2]
      · exact ⟨rfl, h3⟩
      · rw [h4]
        simp [cumulative]
        omega

theorem chains_calls {w : Worker} {ctx : SpanContext} {r : IterRand} :
    ∀ (cs : List String) (k : Nat) (s s1 : ChainLoop),
      chains w ctx r k cs s = some s1 →
      ∃ cl, calls s1.events = calls s.events ++ cl ∧
        cl.map (fun c => c.1) = cs.map (fun c => Split c ',') ∧
        threadedCalls w r k s.chainedLatency cl := by
  intro cs
  induction cs with
  | nil =>
    intro k s s1 h
    simp only [chains, Option.some.injEq] at h
    subst h
    exact ⟨[], by simp, rfl, trivial⟩
  | cons c cs ih =>
    intro k s s1 h
    simp only [chains] at h
    split at h
    · exact absurd h (by simp)
    · rename_i res hres
      obtain ⟨cl, h1, h2, h3⟩ := ih (k + 1) _ s1 h
      refine ⟨(Split c ',', s.chainedLatency, res) :: cl, ?_, ?_, ?_⟩
      · rw [h1, calls_append]
        simp [calls]
      · simp [h2]
      · exact ⟨rfl, ⟨ctx, s.clock, hres⟩, h3⟩

theorem chains_IterInv {w : Worker} {ctx : SpanContext} {r : IterRand} {I : Nat} :
    ∀ (cs : List String) (k : Nat) (s s1 : ChainLoop),
      chains w ctx r k cs s = some s1 → IterInv I s → IterInv I s1 := by
  intro cs
  induction cs with
  | nil =>
    intro k s s1 h hinv
    simp only [chains, Option.some.injEq] at h
    exact h ▸ hinv
  | cons c cs ih =>
    intro k s s1 h hinv
    simp only [chains] at h
    split at h
    · exact absurd h (by simp)
    · rename_i res hres
      refine ih (k + 1) _ s1 h ?_
      obtain ⟨hb1, hb2⟩ := fakeTraces_bounds hres
      obtain ⟨hi1, hi2⟩ := hinv
      refine ⟨?_, ?_⟩
      · simp only
        omega
      · intro c1 lat res1 j t hmem hfin
        simp only at hmem ⊢
        rcases List.mem_append.mp hmem with hold | hnew
        · have := hi2 c1 lat res1 j t hold hfin
          omega
        · simp only [List.mem_singleton, WEvent.chain.injEq] at hnew
          obtain ⟨_, _, rfl⟩ := hnew
          have := hb2 j t hfin
          omega

/-- The loop over the chains adds only calls of the chain simulator to the
events. -/
theorem chains_events {w : Worker} {ctx : SpanContext} {r : IterRand} :
    ∀ (cs : List String) (k : Nat) (a b : ChainLoop),
      chains w ctx r k cs a = some b →
      ∀ e ∈ b.events, e ∈ a.events ∨ ∃ c lat res, e = WEvent.chain c lat res := by
  intro cs
  induction cs with
  | nil =>
    intro k a b hab e he
    simp only [chains, Option.some.injEq] at hab
    exact Or.inl (hab ▸ he)
  | cons c cs ih =>
    intro k a b hab e he
    simp only [chains] at hab
    split at hab
    · exact absurd hab (by simp)
    · rcases ih (k + 1) _ b hab e he with h1 | h1
      · rcases List.mem_append.mp h1 with h2 | h2
        · exact Or.inl h2
        · exact Or.inr ⟨_, _, _, List.mem_singleton.mp h2⟩
      · exact Or.inr h1

/-- The shape of a successful iteration. -/
theorem iteration_eq_some {w : Worker} {r : IterRand} {clock clock1 : Nat} {evs : List WEvent}
    (h : iteration w r clock = some (clock1, evs)) :
    ∃ o s, openRoot w r clock = some o ∧
      chains w o.2 r 0 w.chainedServices ⟨clock, 0, 0, 0, o.1⟩ = some s ∧
      clock1 = s.clock ∧
      evs = s.events ++ [WEvent.rootFinish (clock + s.totalLatency)] := by
  unfold iteration at h
  split at h
  · exact absurd h (by simp)
  · rename_i o ho
    simp only at h
    split at h
    · exact absurd h (by simp)
    · rename_i s hs
      simp only [Option.some.injEq, Prod.mk.injEq] at h
      exact ⟨o, s, ho, hs, h.1.symm, h.2.symm⟩

/-! ## C4: the root span ends after all spans of its chains -/

/-- C4: in an iteration that completes, with the clock advancing exactly by
the durations slept, the root span is finished once, at the iteration start
plus the accumulated total latency, and that instant is not earlier than the
synthesized finish time of any span of any chain of the iteration: the finish
of every hop after the first (its start instant plus its duration) and the
finish of every chain root (chain start plus total plus slept). -/
theorem rootFinish_not_before_spans {w : Worker} {r : IterRand} {clock clock1 : Nat}
    {evs : List WEvent} (h : iteration w r clock = some (clock1, evs)) :
    WEvent.rootFinish (clock + cumulative (chainCalls evs)) ∈ evs ∧
    ∀ T c lat res j t, WEvent.rootFinish T ∈ evs → WEvent.chain c lat res ∈ evs →
      Event.finish j t ∈ res.events → t ≤ T := by
  obtain ⟨o, s, ho, hs, _, rfl⟩ := iteration_eq_some h
  obtain ⟨hnochain, hnofinish, hcc, _, _⟩ := openRoot_spec ho
  have hinit : IterInv clock ⟨clock, 0, 0, 0, o.1⟩ := by
    refine ⟨Nat.le_refl _, ?_⟩
    intro c lat res j t hmem _
    exact absurd hmem (hnochain c lat res)
  obtain ⟨_, hfin⟩ := chains_IterInv w.chainedServices 0 _ s hs hinit
  obtain ⟨cl, hcalls, _, _, htot⟩ := chains_threaded w.chainedServices 0 _ s hs
  have hroot : ∀ T, WEvent.rootFinish T ∈ s.events → False := by
    intro T hT
    rcases chains_events w.chainedServices 0 _ s hs _ hT with h1 | ⟨c, lat, res, h1⟩
    · exact hnofinish T h1
    · exact WEvent.noConfusion h1
  have hcum : cumulative (chainCalls (s.events ++ [WEvent.rootFinish (clock + s.totalLatency)])) =
      s.totalLatency := by
    rw [chainCalls_append, hcalls, hcc, htot]
    simp [chainCalls]
  refine ⟨?_, ?_⟩
  · rw [hcum]
    exact List.mem_append_right _ (List.mem_singleton.mpr rfl)
  · intro T c lat res j t hT hchain hfinish
    have hT1 : T = clock + s.totalLatency := by
      rcases List.mem_append.mp hT with h1 | h1
      · exact absurd h1 (hroot T)
      · simpa using h1
    have hchain1 : WEvent.chain c lat res ∈ s.events := by
      rcases List.mem_append.mp hchain with h1 | h1
      · exact h1
      · simp at h1
    rw [hT1]
    exact hfin c lat res j t hchain1 hfinish

/-- C4 holds on an iteration of two chains with pauses. -/
theorem rootFinish_not_before_spans_witness :
    iteration wSample rPausing 0 = some itPausing ∧
    WEvent.rootFinish (0 + cumulative (chainCalls itPausing.2)) ∈ itPausing.2 ∧
    ∀ T c lat res j t, WEvent.rootFinish T ∈ itPausing.2 →
      WEvent.chain c lat res ∈ itPausing.2 → Event.finish j t ∈ res.events → t ≤ T :=
  ⟨by decide, rootFinish_not_before_spans
    (show iteration wSample rPausing 0 = some (itPausing.1, itPausing.2) by decide)⟩

/-! ## C8: the incoming latency of a chain -/

/-- C8, as stated, fails: with three chains that each return a total of 10 ms
and no slept latency, the third chain is passed 10 ms, the total of the second
chain alone, while the latency accumulated by the two prior chains is 20 ms;
and with a first chain returning total 2 ms and slept 4 ms, the second chain is
passed 2 ms, not 6 ms. -/
theorem incoming_not_cumulative :
    (iteration wThree rSteady 0).map (fun x => chainCalls x.2) =
      some [(0, 10000000, 0), (10000000, 10000000, 0), (10000000, 10000000, 0)] ∧
    cumulative [(0, 10000000, 0), (10000000, 10000000, 0)] = 20000000 ∧
    (iteration wSample rPausing 0).map (fun x => chainCalls x.2) =
      some [(0, 2000000, 4000000), (2000000, 0, 0)] ∧
    cumulative [(0, 2000000, 4000000)] = 6000000 := by
  refine ⟨?_, ?_, ?_, ?_⟩ <;> decide

/-- C8, amended: in an iteration that completes, the calls of `fakeTraces`
are, in order, one for each configured chain `c_1 .. c_m`, the `k`-th with the
names of `c_k` split at the commas; the incoming latency passed for `c_1` is 0
and the one passed for every later `c_k` is the `totalLatency` returned by the
call for `c_(k-1)` (without its `sleptLatency` and without the latencies of
earlier chains), each result being what `fakeTraces` returns for that chain
and that incoming latency.  The cumulative sum of the returned `totalLatency`
and `sleptLatency` is the worker's running total, which only sets the finish
time of the root span. -/
theorem chains_incoming_latency {w : Worker} {r : IterRand} {clock clock1 : Nat}
    {evs : List WEvent} (h : iteration w r clock = some (clock1, evs)) :
    (calls evs).map (fun c => c.1) = w.chainedServices.map (fun c => Split c ',') ∧
    threadedCalls w r 0 0 (calls evs) ∧
    chainCalls evs = (calls evs).map (fun c => (c.2.1, c.2.2.totalLatency, c.2.2.sleptLatency)) ∧
    (chainCalls evs).length = w.chainedServices.length ∧
    threaded 0 (chainCalls evs) ∧
    WEvent.rootFinish (clock + cumulative (chainCalls evs)) ∈ evs := by
  obtain ⟨o, s, ho, hs, _, rfl⟩ := iteration_eq_some h
  obtain ⟨_, _, hcc, hc0, _⟩ := openRoot_spec ho
  obtain ⟨cl, hcalls, hlen, hthr, htot⟩ := chains_threaded w.chainedServices 0 _ s hs
  obtain ⟨cl2, hcalls2, hmap, hthr2⟩ := chains_calls w.chainedServices 0 _ s hs
  have h1 : chainCalls (s.events ++ [WEvent.rootFinish (clock + s.totalLatency)]) = cl := by
    rw [chainCalls_append, hcalls, hcc]
    simp [chainCalls]
  have h2 : calls (s.events ++ [WEvent.rootFinish (clock + s.totalLatency)]) = cl2 := by
    rw [calls_append, hcalls2, hc0]
    simp [calls]
  have h3 : ∀ evs : List WEvent, chainCalls evs =
      (calls evs).map (fun c => (c.2.1, c.2.2.totalLatency, c.2.2.sleptLatency)) := by
    intro evs
    induction evs with
    | nil => rfl
    | cons e es ih =>
      cases e <;> simp_all [chainCalls, calls, List.filterMap_cons]
  refine ⟨?_, ?_, h3 _, ?_, ?_, ?_⟩
  · rw [h2]
    exact hmap
  · rw [h2]
    exact hthr2
  · rw [h1]
    exact hlen
  · rw [h1]
    exact hthr
  · rw [h1, htot]
    simp

/-- C8, amended, holds on an iteration of three chains. -/
theorem chains_incoming_latency_witness :
    iteration wThree rSteady 0 = some itSteady ∧
    (calls itSteady.2).map (fun c => c.1) = [["svc-a"], ["svc-b"], ["svc-c"]] ∧
    threadedCalls wThree rSteady 0 0 (calls itSteady.2) ∧
    threaded 0 (chainCalls itSteady.2) :=
  ⟨by decide,
    (chains_incoming_latency
      (show iteration wThree rSteady 0 = some (itSteady.1, itSteady.2) by decide)).1.trans
      (by decide),
    (chains_incoming_latency
      (show iteration wThree rSteady 0 = some (itSteady.1, itSteady.2) by decide)).2.1,
    (chains_incoming_latency
      (show iteration wThree rSteady 0 = some (itSteady.1, itSteady.2) by decide)).2.2.2.2.1⟩

/-! ## Lemmas on the worker loop -/

theorem chains_isSome {w : Worker} (ctx : SpanContext) (r : IterRand)
    (hwf : wellFormedOps w.serviceApis) (hr : ∀ k, r.newTracerFails k = false) :
    ∀ (cs : List String), (∀ c ∈ cs, plainFirst c = true) → ∀ (k : Nat) (s : ChainLoop),
      ∃ s1, chains w ctx r k cs s = some s1 ∧
        s1.events.filterMap ctl = s.events.filterMap ctl ++ List.replicate cs.length Ctl.chain := by
  intro cs
  induction cs with
  | nil =>
    intro _ k s
    exact ⟨s, rfl, by simp⟩
  | cons c cs ih =>
    intro hplain k s
    have hc := hplain c (List.mem_cons_self _ _)
    unfold plainFirst at hc
    obtain ⟨res, hres⟩ : ∃ res, fakeTraces ctx (Split c ',') w.serviceApis s.chainedLatency
        (r.newTracerFails k) (r.hops k) s.clock = some res := by
      rw [hr k]
      cases hsplit : Split c ',' with
      | nil => exact absurd hsplit (Split_ne_nil c ',')
      | cons first rest =>
        rw [hsplit] at hc
        simp only [Bool.not_eq_true'] at hc
        exact fakeTraces_returns hwf ctx first rest _ _ _ hc
    obtain ⟨s1, h1, h2⟩ := ih (fun c1 h => hplain c1 (List.mem_cons_of_mem _ h)) (k + 1)
      { clock := res.clock
        totalLatency := s.totalLatency + res.totalLatency + res.sleptLatency
        chainedLatency := res.totalLatency
        sleptLatency := res.sleptLatency
        events := s.events ++ [WEvent.chain (Split c ',') s.chainedLatency res] }
    refine ⟨s1, by simp only [chains, hres, h1], ?_⟩
    rw [h2]
    simp [ctl, List.replicate_succ]

/-- Every iteration of a runnable worker completes under steady draws: it
starts the root span, calls the chain simulator once per configured chain and
finishes the root span. -/
theorem iteration_isSome {w : Worker} (hrun : runnable w) (r : IterRand) (hr : steady w r)
    (clock : Nat) :
    ∃ clock1 evs, iteration w r clock = some (clock1, evs) ∧
      (Ctl.load true :: evs.filterMap ctl) = iterationShape w.chainedServices.length := by
  obtain ⟨o, ho⟩ := openRoot_isSome w r clock hr.1
  obtain ⟨_, _, _, _, hctl⟩ := openRoot_spec ho
  obtain ⟨s, hs, hev⟩ := chains_isSome (w := w) o.2 r hrun.1 hr.2
    w.chainedServices hrun.2 0 ⟨clock, 0, 0, 0, o.1⟩
  refine ⟨s.clock, s.events ++ [WEvent.rootFinish (clock + s.totalLatency)], ?_, ?_⟩
  · unfold iteration
    simp only [ho, hs]
  · rw [List.filterMap_append, hev, hctl]
    simp [ctl, iterationShape]

theorem loop_succ (w : Worker) (flag : Nat → Nat) (rnd : Nat → IterRand) (fuel : Nat)
    (s : WorkerState) :
    loop w flag rnd (fuel + 1) s =
      if flag s.loads = 1 then
        match iteration w (rnd s.i) s.clock with
        | none => Run.panicked
        | some (clock, evs) =>
          if w.traces ≠ 0 ∧ ((s.i + 1 : Nat) : Int) ≥ w.traces then
            Run.ok ⟨clock, s.i + 1, s.loads + 1, s.events ++ [WEvent.load (flag s.loads)] ++ evs⟩
          else
            loop w flag rnd fuel
              ⟨clock, s.i + 1, s.loads + 1, s.events ++ [WEvent.load (flag s.loads)] ++ evs⟩
      else Run.ok ⟨s.clock, s.i, s.loads + 1, s.events ++ [WEvent.load (flag s.loads)]⟩ := rfl

theorem loop_run {w : Worker} {flag : Nat → Nat} (rnd : Nat → IterRand) {n k : Nat}
    (hrun : runnable w) (henv : ∀ j, steady w (rnd j))
    (hn : w.traces = (n : Int)) (hk : ∀ j, j < k → flag j = 1)
    (hstop : flag k ≠ 1) :
    ∀ (d : Nat) (s : WorkerState) (fuel : Nat),
      s.loads = s.i → s.i + d = completed n k → (d = 0 → stoppedByFlag n k) → d < fuel →
      ∃ s1, loop w flag rnd fuel s = Run.ok s1 ∧ s1.i = completed n k ∧
        s1.loads = completed n k + (if stoppedByFlag n k then 1 else 0) ∧
        s1.events.filterMap ctl =
          s.events.filterMap ctl ++
            (List.replicate d (iterationShape w.chainedServices.length)).flatten ++
            (if stoppedByFlag n k then [Ctl.load false] else []) := by
  have hck : completed n k ≤ k := by
    unfold completed
    split
    · exact Nat.le_refl _
    · exact Nat.min_le_left _ _
  have hcn : n ≠ 0 → completed n k ≤ n := by
    intro h0
    unfold completed
    rw [if_neg h0]
    exact Nat.min_le_right _ _
  have hflag : stoppedByFlag n k → completed n k = k := by
    intro h
    unfold completed
    split
    · rfl
    · rcases h with h | h
      · contradiction
      · exact Nat.min_eq_left (Nat.le_of_lt h)
  have hnoflag : ¬ stoppedByFlag n k → n ≠ 0 ∧ completed n k = n := by
    intro h
    unfold stoppedByFlag at h
    have h0 : n ≠ 0 := fun e => h (Or.inl e)
    have h1 : n ≤ k := by omega
    refine ⟨h0, ?_⟩
    unfold completed
    rw [if_neg h0]
    exact Nat.min_eq_right h1
  intro d
  induction d with
  | zero =>
    intro s fuel hl hi hd hfuel
    obtain ⟨fuel1, rfl⟩ : ∃ f, fuel = f + 1 := ⟨fuel - 1, by omega⟩
    have hsf := hd rfl
    have hload : flag s.loads ≠ 1 := by
      have : s.loads = k := by
        have := hflag hsf
        omega
      rw [this]
      exact hstop
    rw [loop_succ, if_neg hload]
    refine ⟨_, rfl, by simpa using hi, ?_, ?_⟩
    · simp only [if_pos hsf]
      omega
    · simp [List.filterMap_append, ctl, hload, if_pos hsf]
  | succ d ih =>
    intro s fuel hl hi hd hfuel
    obtain ⟨fuel1, rfl⟩ : ∃ f, fuel = f + 1 := ⟨fuel - 1, by omega⟩
    have hload : flag s.loads = 1 := hk _ (by omega)
    obtain ⟨clock1, evs, hiter, hshape⟩ := iteration_isSome hrun (rnd s.i) (henv s.i) s.clock
    rw [loop_succ, if_pos hload, hiter]
    simp only [hload]
    have hev : (s.events ++ [WEvent.load 1] ++ evs).filterMap ctl =
        s.events.filterMap ctl ++ iterationShape w.chainedServices.length := by
      rw [← hshape]
      simp [List.filterMap_append, ctl]
    by_cases hb : w.traces ≠ 0 ∧ ((s.i + 1 : Nat) : Int) ≥ w.traces
    · rw [if_pos hb]
      rw [hn] at hb
      have hn0 : n ≠ 0 := by omega
      have hcn1 := hcn hn0
      have hd0 : d = 0 := by omega
      subst hd0
      have hnf : ¬ stoppedByFlag n k := by
        intro h
        have := hflag h
        unfold stoppedByFlag at h
        omega
      refine ⟨_, rfl, by simpa using hi, ?_, ?_⟩
      · simp only [if_neg hnf]
        omega
      · simp only [if_neg hnf, hev]
        simp
    · rw [if_neg hb]
      rw [hn] at hb
      obtain ⟨s1, h1, h2, h3, h4⟩ := ih
        ⟨clock1, s.i + 1, s.loads + 1, s.events ++ [WEvent.load 1] ++ evs⟩ fuel1
        (by simp only; omega) (by simp only; omega)
        (by
          intro hd0
          by_contra hnf
          obtain ⟨h0, hc⟩ := hnoflag hnf
          omega)
        (by omega)
      refine ⟨s1, h1, h2, h3, ?_⟩
      rw [h4, hev]
      simp [List.replicate_succ, List.append_assoc]

/-! ## C7: the number of iterations of a worker -/

/-- C7, as stated, fails: with target 1 and the flag reading "running" at
exactly the first three checks, a worker whose pool holds the name `ping`
(no colon) is cut short in its first iteration by the panic of the chain
simulator, and a worker whose chain is the empty service name, for which no
tracer can be created, by the fatal exit; neither completes an iteration,
writes the log line or signals the completion counter. -/
theorem simulateTraces_cut_short :
    wPing.traces = 1 ∧ wBlank.traces = 1 ∧
    (∀ j, j < 3 → flagThree j = 1) ∧ flagThree 3 ≠ 1 ∧
    simulateTraces wPing flagThree (fun _ => rPausing) 4 0 = Run.panicked ∧
    simulateTraces wBlank flagThree (fun _ => rFatal) 4 0 = Run.panicked := by
  refine ⟨?_, ?_, ?_, ?_, ?_, ?_⟩ <;> decide

/-- C7, amended: for a worker whose iterations cannot be cut short (a
non-empty pool in which every name has a colon, chains starting with an
ordinary service, every call of `fakeTracer` obtaining a tracer, and a jaeger
root span when the firehose flag is set), every target `n` (0 meaning
unbounded) and every history of the flag that reads "running" at exactly the
first `k` loop-head checks, `simulateTraces` returns for every fuel above `k`;
it has completed `k` iterations when `n = 0` and `min k n` when `n ≥ 1`; the
flag is loaded once before each iteration and once more only when the loop is
stopped by the flag; every iteration started is finished (root span started,
one call of the chain simulator per configured chain, root span finished); the
count is then reported and the completion counter signalled, once, as the last
two events. -/
theorem simulateTraces_iterations {w : Worker} {flag : Nat → Nat} (rnd : Nat → IterRand)
    {n k : Nat} (clock : Nat) (hrun : runnable w) (henv : ∀ j, steady w (rnd j))
    (hn : w.traces = (n : Int))
    (hk : ∀ j, j < k → flag j = 1) (hstop : flag k ≠ 1) :
    ∀ fuel, k < fuel →
      ∃ s, simulateTraces w flag rnd fuel clock = Run.ok s ∧
        s.i = (if n = 0 then k else min k n) ∧
        s.loads = s.i + (if n = 0 ∨ k < n then 1 else 0) ∧
        s.events.filterMap ctl =
          (List.replicate s.i (iterationShape w.chainedServices.length)).flatten ++
            (if n = 0 ∨ k < n then [Ctl.load false] else []) ++
            [Ctl.info (report w.id s.i), Ctl.done] := by
  intro fuel hfuel
  have hck : completed n k ≤ k := by
    unfold completed
    split
    · exact Nat.le_refl _
    · exact Nat.min_le_left _ _
  have hzero : completed n k = 0 → stoppedByFlag n k := by
    intro h
    unfold completed at h
    unfold stoppedByFlag
    split at h
    · exact Or.inl (by assumption)
    · rcases Nat.lt_or_ge k n with h1 | h1
      · exact Or.inr h1
      · rw [Nat.min_eq_right h1] at h
        contradiction
  obtain ⟨s1, h1, h2, h3, h4⟩ := loop_run rnd hrun henv hn hk hstop (completed n k)
    ⟨clock, 0, 0, []⟩ fuel rfl (by simp) hzero (by omega)
  refine ⟨{ s1 with events := s1.events ++ [WEvent.info (report w.id s1.i), WEvent.done] },
    ?_, ?_, ?_, ?_⟩
  · unfold simulateTraces
    rw [h1]
  · exact h2
  · simp only [h2, h3]
    rfl
  · simp only [List.filterMap_append, h4, h2]
    simp [ctl, stoppedByFlag, completed]

/-- C7, amended, on a worker with target 1 and two chains while the flag reads
"running" three times: one iteration, one load of the flag, and the log line
`Worker 3 generated 1 traces`. -/
theorem simulateTraces_iterations_witness :
    runnable wSample ∧ (∀ j : Nat, steady wSample ((fun _ => rPausing) j)) ∧
    wSample.traces = ((1 : Nat) : Int) ∧
    (∀ j, j < 3 → flagThree j = 1) ∧ flagThree 3 ≠ 1 ∧
    (∃ s, simulateTraces wSample flagThree (fun _ => rPausing) 4 0 = Run.ok s ∧
      s.i = (if 1 = 0 then 3 else min 3 1) ∧
      s.loads = s.i + (if 1 = 0 ∨ 3 < 1 then 1 else 0) ∧
      s.events.filterMap ctl =
        (List.replicate s.i (iterationShape wSample.chainedServices.length)).flatten ++
          (if 1 = 0 ∨ 3 < 1 then [Ctl.load false] else []) ++
          [Ctl.info (report wSample.id s.i), Ctl.done]) ∧
    report wSample.id 1 = "Worker 3 generated 1 traces" :=
  ⟨by decide, fun _ => ⟨fun _ => rfl, fun _ => rfl⟩, by decide, by decide, by decide,
    simulateTraces_iterations (fun _ => rPausing) 0 (by decide)
      (fun _ => ⟨fun _ => rfl, fun _ => rfl⟩) (by decide) (by decide)
      (by decide) 4 (by decide),
    by decide⟩

end Tracegen
